import Mathlib

/-!
# go-graphite: the render client (`render.go`)

A shallow embedding of `render.go` and of the parts of the Go standard library
it drives (`encoding/json`, `strconv`, `path`, `net/url`), followed by the
properties of the client that are proved about it.

Conventions of the embedding.

* Go strings are Lean strings, Go slices are Lean lists (a nil slice and an
  empty slice are both `[]`), `int` and `int64` are `Int` with the range checks
  written out where the code depends on them.
* A JSON document is the value `JSON` that the scanner of `encoding/json`
  delivers; a byte sequence that the scanner rejects is the `Body.bad` case of a
  response body.  Number literals keep their sign, integer digits, fraction
  digits and exponent, because `strconv.ParseInt` and `strconv.ParseFloat`
  read the literal.
* A `float64` is its IEEE 754 binary64 fields.
* The decoder threads the first recorded error (`decodeState.savedError`)
  explicitly; an error returned by an `UnmarshalJSON` method aborts the decode
  and is the `Except.error` case.
-/

namespace graphite

/-! ## Errors -/

/-- Go `error` values that occur in the client. -/
inductive Error where
  /-- An error value made outside this package: by the doer, by `net/http` or
  by the reader of the response body. -/
  | foreign (msg : String)
  /-- The Go `*json.UnmarshalTypeError` with its fields `Value` and `Type`: the
  JSON value described by `value` (`string`, `array`, ..., or `number` followed
  by the literal when it is a number that does not fit) cannot be stored in
  the Go type `goType`.  The fields `Offset`, `Struct` and `Field` are left
  out. -/
  | unmarshalType (value : String) (goType : String)
  /-- The Go `fmt.Errorf` with a finished message and no wrapped cause. -/
  | errorf (msg : String)
  /-- The Go `fmt.Errorf("<msg>: %w", cause)`. -/
  | wrap (msg : String) (cause : Error)
  deriving DecidableEq, Repr

/-- The message of an error, what its `Error()` method returns. -/
def Error.message : Error → String
  | .foreign msg => msg
  | .unmarshalType value goType =>
      "json: cannot unmarshal " ++ value ++ " into Go value of type " ++ goType
  | .errorf msg => msg
  | .wrap msg cause => msg ++ ": " ++ cause.message

/-- The Go `errors.Is(e, target)`: `target` is `e` or is reached from `e` by
unwrapping. -/
def Error.Is : Error → Error → Bool
  | .wrap msg cause, target => (Error.wrap msg cause == target) || cause.Is target
  | e, target => e == target

/-! ## `strconv` -/

/-- The exponent part of a JSON number literal, `[eE] [+-]? digit+`: whether
the letter is `E`, the sign (`none` when there is none, `some true` for `-`,
`some false` for `+`) and the digits as written. -/
structure JExponent where
  upper : Bool
  sign : Option Bool
  digits : List (Fin 10)
  deriving DecidableEq, Repr

/-- A run of decimal digits read as one natural number. -/
def digitsValue (ds : List (Fin 10)) : Nat :=
  ds.foldl (fun acc d => 10 * acc + d.val) 0

/-- The integer that an exponent part denotes. -/
def JExponent.value (e : JExponent) : Int :=
  if e.sign = some true then -(digitsValue e.digits : Int) else (digitsValue e.digits : Int)

/-- A JSON number literal `-? int (. frac)? ([eE] exp)?`.  `int` is the integer
part (written without leading zeros), `frac` holds the digits after the point
(`[]` when the literal has no fraction part) and `exp` the exponent part when
there is one. -/
structure JNumber where
  neg : Bool
  int : Nat
  frac : List (Fin 10)
  exp : Option JExponent
  deriving DecidableEq, Repr

/-- The characters of a run of digits. -/
def digitsText (ds : List (Fin 10)) : String :=
  String.mk (ds.map (fun d => Char.ofNat (48 + d.val)))

/-- The text of an exponent part. -/
def JExponent.text (e : JExponent) : String :=
  (if e.upper then "E" else "e")
    ++ (match e.sign with
        | none => ""
        | some true => "-"
        | some false => "+")
    ++ digitsText e.digits

/-- The text of the literal, as it stands in the document. -/
def JNumber.text (n : JNumber) : String :=
  (if n.neg then "-" else "") ++ Nat.repr n.int
    ++ (if n.frac = [] then "" else "." ++ digitsText n.frac)
    ++ (match n.exp with
        | none => ""
        | some e => e.text)

/-- The digits of the fraction part read as one natural number. -/
def JNumber.fracValue (n : JNumber) : Nat :=
  digitsValue n.frac

/-- The value of the exponent part, 0 when there is none. -/
def JNumber.expValue (n : JNumber) : Int :=
  match n.exp with
  | none => 0
  | some e => e.value

/-- The decimal significand of the literal: all its digits, the point
removed. -/
def JNumber.digits (n : JNumber) : Nat :=
  n.int * 10 ^ n.frac.length + n.fracValue

/-- The power of ten that scales `digits` to the value of the literal. -/
def JNumber.exp10 (n : JNumber) : Int :=
  n.expValue - n.frac.length

/-- The integer that the sign and the integer digits of the literal denote. -/
def JNumber.intValue (n : JNumber) : Int :=
  if n.neg then -(n.int : Int) else (n.int : Int)

/-- The Go `strconv.ParseInt(s, 10, 64)` on a JSON number literal: only a literal
without fraction and exponent part is an integer, and it must lie in the
`int64` range. -/
def strconv.ParseInt (n : JNumber) : Option Int :=
  if n.frac ≠ [] ∨ n.exp.isSome then none
  else if -(2 : Int) ^ 63 ≤ n.intValue ∧ n.intValue ≤ (2 : Int) ^ 63 - 1 then
    some n.intValue
  else none

/-- An IEEE 754 binary64 value by its fields: sign bit, biased exponent
(11 bits) and fraction (52 bits). -/
structure Float64 where
  sign : Bool
  expo : Nat
  frac : Nat
  deriving DecidableEq, Repr

/-- The number of binary digits of `n`; `fuel` bounds the halvings and
`fuel = n` is always enough. -/
def bitLen : Nat → Nat → Nat
  | 0, _ => 0
  | fuel + 1, n => if n = 0 then 0 else bitLen fuel (n / 2) + 1

/-- The quotient `a / b` rounded to the nearest integer, a tie going to the
even neighbour. -/
def roundHalfEven (a b : Nat) : Nat :=
  let q := a / b
  let r := a % b
  if 2 * r < b then q
  else if b < 2 * r then q + 1
  else if q % 2 = 0 then q else q + 1

/-- The binary exponent `e` with `2^e ≤ num / den < 2^(e+1)`, for positive
`num` and `den`. -/
def binaryExponent (num den : Nat) : Int :=
  let e0 : Int := (bitLen num num : Int) - (bitLen den den : Int)
  if den * 2 ^ e0.toNat ≤ num * 2 ^ (-e0).toNat then e0 else e0 - 1

/-- The Go `strconv.ParseFloat(s, 64)` on a JSON number literal: the nearest binary64
value, ties to even; `none` is the range error of a literal that rounds beyond
the largest finite value.  A literal too small to be represented gives a
subnormal value or zero without an error. -/
def strconv.ParseFloat (n : JNumber) : Option Float64 :=
  if n.digits = 0 then some ⟨n.neg, 0, 0⟩
  else
    let num := n.digits * 10 ^ n.exp10.toNat
    let den := 10 ^ (-n.exp10).toNat
    let e := max (binaryExponent num den) (-1022)
    let q := e - 52
    let m := roundHalfEven (num * 2 ^ (-q).toNat) (den * 2 ^ q.toNat)
    let e1 := if m = 2 ^ 53 then e + 1 else e
    let m1 := if m = 2 ^ 53 then 2 ^ 52 else m
    if 1023 < e1 then none
    else if m1 < 2 ^ 52 then some ⟨n.neg, 0, m1⟩
    else some ⟨n.neg, (e1 + 1023).toNat, m1 - 2 ^ 52⟩

/-- The Go `strconv.FormatInt(i, 10)`. -/
def strconv.FormatInt (i : Int) : String :=
  if i < 0 then "-" ++ Nat.repr i.natAbs else Nat.repr i.toNat

/-! ## JSON documents -/

/-- A JSON value as delivered by the scanner of `encoding/json`. -/
inductive JSON where
  | null
  | bool (b : Bool)
  | number (n : JNumber)
  | string (s : String)
  | array (xs : List JSON)
  | object (kvs : List (String × JSON))
  deriving Repr

/-- The word `encoding/json` uses for the kind of a value in an
`UnmarshalTypeError`. -/
def JSON.kind : JSON → String
  | .null => "null"
  | .bool _ => "bool"
  | .number _ => "number"
  | .string _ => "string"
  | .array _ => "array"
  | .object _ => "object"

mutual
/-- Decoding a value into an empty `interface{}` stores every number as a
`float64` (`convertNumber`); the only error is a number literal, at any depth,
outside the `float64` range.  `rangeError j` is the first such literal of `j`
in document order, if there is one. -/
def JSON.rangeError : JSON → Option JNumber
  | .number n => if (strconv.ParseFloat n).isNone then some n else none
  | .array xs => rangeErrorList xs
  | .object kvs => rangeErrorFields kvs
  | _ => none
/-- The function `JSON.rangeError` over the elements of an array. -/
def rangeErrorList : List JSON → Option JNumber
  | [] => none
  | x :: xs =>
    match x.rangeError with
    | some n => some n
    | none => rangeErrorList xs
/-- The function `JSON.rangeError` over the values of the members of an object. -/
def rangeErrorFields : List (String × JSON) → Option JNumber
  | [] => none
  | kv :: kvs =>
    match kv.2.rangeError with
    | some n => some n
    | none => rangeErrorFields kvs
end

/-- The state `decodeState.savedError` after `saveError(e)`: the first error
is kept. -/
def saveError (saved : Option Error) (e : Error) : Option Error :=
  match saved with
  | some e0 => some e0
  | none => some e

/-! ## `DataPoint` -/

/-- DataPoint represents a single point of data. It has a timestamp and
value; `Value` is a `*float64`, `none` being the nil pointer. -/
structure DataPoint where
  Timestamp : Int
  Value : Option Float64
  deriving DecidableEq, Repr

/-- The zero value of `float64`. -/
def Float64.zero : Float64 := ⟨false, 0, 0⟩

/-- The zero value of `DataPoint`. -/
def DataPoint.zero : DataPoint := ⟨0, none⟩

/-- Element 0 of `tmp`, the pointer `&p.Value`.  A `null` sets `p.Value` to
nil.  For every other value the decoder first follows the pointers, allocating
a zero `float64` when `p.Value` is nil, and then stores a number that
`strconv.ParseFloat` accepts; anything else is recorded as a type error, whose
`Value` is `number` and the literal for a number out of range. -/
def storeValue (p : DataPoint) (saved : Option Error) (j : JSON) :
    DataPoint × Option Error :=
  match j with
  | .null => ({ p with Value := none }, saved)
  | .number n =>
    match strconv.ParseFloat n with
    | some f => ({ p with Value := some f }, saved)
    | none => ({ p with Value := some (p.Value.getD Float64.zero) },
        saveError saved (.unmarshalType ("number " ++ n.text) "float64"))
  | j => ({ p with Value := some (p.Value.getD Float64.zero) },
      saveError saved (.unmarshalType j.kind "float64"))

/-- Element 1 of `tmp`, the pointer `&p.Timestamp`.  A `null` sets the slice
element itself to nil and leaves `p.Timestamp` alone; a number that
`strconv.ParseInt` accepts is stored; anything else is recorded as a type
error. -/
def storeTimestamp (p : DataPoint) (saved : Option Error) (j : JSON) :
    DataPoint × Option Error :=
  match j with
  | .null => (p, saved)
  | .number n =>
    match strconv.ParseInt n with
    | some t => ({ p with Timestamp := t }, saved)
    | none => (p, saveError saved (.unmarshalType ("number " ++ n.text) "int64"))
  | j => (p, saveError saved (.unmarshalType j.kind "int64"))

/-- An element of `tmp` past the first two: the slice has grown by a nil
`interface{}`, which takes any value. -/
def storeInterface (saved : Option Error) (j : JSON) : Option Error :=
  match j.rangeError with
  | some n => saveError saved (.unmarshalType ("number " ++ n.text) "float64")
  | none => saved

/-- The loop of `decodeState.array` over the elements of the JSON array, from
index `i` on, with `tmp = []interface{}{&p.Value, &p.Timestamp}` as target. -/
def unmarshalSlots (p : DataPoint) (saved : Option Error) :
    Nat → List JSON → DataPoint × Option Error
  | _, [] => (p, saved)
  | i, x :: xs =>
    if i = 0 then
      unmarshalSlots (storeValue p saved x).1 (storeValue p saved x).2 (i + 1) xs
    else if i = 1 then
      unmarshalSlots (storeTimestamp p saved x).1 (storeTimestamp p saved x).2 (i + 1) xs
    else
      unmarshalSlots p (storeInterface saved x) (i + 1) xs

/-- The Go `json.Unmarshal(buf, &tmp)` with `tmp = []interface{}{&p.Value,
&p.Timestamp}`: the datapoint afterwards, `len(tmp)` afterwards and the error.
An array sets the length of `tmp` to its own length, `null` makes `tmp` nil and
any other value is a type error that leaves `tmp` as it is. -/
def unmarshalTmp (p : DataPoint) (buf : JSON) : DataPoint × Nat × Option Error :=
  match buf with
  | .array xs => ((unmarshalSlots p none 0 xs).1, xs.length, (unmarshalSlots p none 0 xs).2)
  | .null => (p, 0, none)
  | j => (p, 2, some (.unmarshalType j.kind "[]interface {}"))

/-- UnmarshalJSON is a custom unmarshaler for a `DataPoint`: the receiver
afterwards and the returned error. -/
def DataPoint.UnmarshalJSON (p : DataPoint) (buf : JSON) : DataPoint × Option Error :=
  let wantLen := 2
  match unmarshalTmp p buf with
  | (p1, _, some err) => (p1, some err)
  | (p1, g, none) =>
    if g ≠ wantLen then
      (p1, some (.errorf ("wrong number of fields in datapoint: "
        ++ toString g ++ " != " ++ toString wantLen)))
    else (p1, none)

/-! ## `Series` and the response -/

/-- Series represents one time series worth of data. -/
structure Series where
  DataPoints : List DataPoint
  Target : String
  deriving DecidableEq, Repr

/-- The zero value of `Series`. -/
def Series.zero : Series := ⟨[], ""⟩

/-- RenderResponse is the response from the graphite server. -/
structure RenderResponse where
  Series : List Series
  deriving DecidableEq, Repr

/-- Case folding of one character of an object key, as far as it can reach an
ASCII letter: the lower-case letters, the long s (U+017F) and the Kelvin sign
(U+212A) fold to upper-case ASCII letters. -/
def foldRune (c : Char) : Char :=
  if 97 ≤ c.toNat ∧ c.toNat ≤ 122 then Char.ofNat (c.toNat - 32)
  else if c.toNat = 0x17F then 'S'
  else if c.toNat = 0x212A then 'K'
  else c

/-- The folded form of a key. -/
def foldName (s : String) : List Char := s.data.map foldRune

/-- The member key `key` selects the struct field with JSON name `field`: an
exact match, or else a match of the folded names. -/
def fieldMatches (field key : String) : Bool :=
  key == field || foldName key == foldName field

/-- The Go `decodeState.array` with a `[]DataPoint` as target.  Element `i` of the
JSON array is decoded into element `i` of the slice, `old` being what the slice
holds there already and a zero `DataPoint` where it has to grow; every element
goes through `DataPoint.UnmarshalJSON`, whose error aborts the decode.  The
slice holds elements already only when the key `datapoints` occurs again in one
object; the elements it grows by are zero as long as the key occurs at most
twice there (a third occurrence can reach the backing array of the first). -/
def decodeDataPoints : List DataPoint → List JSON → Except Error (List DataPoint)
  | _, [] => .ok []
  | old, x :: xs =>
    match DataPoint.UnmarshalJSON (old.headD DataPoint.zero) x with
    | (_, some e) => .error e
    | (p, none) =>
      match decodeDataPoints old.tail xs with
      | .error e => .error e
      | .ok ps => .ok (p :: ps)

/-- The value of a member that selects the field `DataPoints`: `null` makes the
slice nil, an array is decoded element by element, any other value is recorded
as a type error. -/
def storeDataPoints (s : Series) (saved : Option Error) (j : JSON) :
    Except Error (Series × Option Error) :=
  match j with
  | .null => .ok ({ s with DataPoints := [] }, saved)
  | .array xs =>
    match decodeDataPoints s.DataPoints xs with
    | .error e => .error e
    | .ok ps => .ok ({ s with DataPoints := ps }, saved)
  | j => .ok (s, saveError saved (.unmarshalType j.kind "[]graphite.DataPoint"))

/-- The value of a member that selects the field `Target`: a string is
stored, `null` is ignored, any other value is recorded as a type error. -/
def storeTarget (s : Series) (saved : Option Error) (j : JSON) : Series × Option Error :=
  match j with
  | .string t => ({ s with Target := t }, saved)
  | .null => (s, saved)
  | j => (s, saveError saved (.unmarshalType j.kind "string"))

/-- The loop of `decodeState.object` over the members of a JSON object with a
`Series` as target; a member whose key selects no field is skipped. -/
def decodeFields (s : Series) (saved : Option Error) :
    List (String × JSON) → Except Error (Series × Option Error)
  | [] => .ok (s, saved)
  | kv :: kvs =>
    if fieldMatches "datapoints" kv.1 then
      match storeDataPoints s saved kv.2 with
      | .error e => .error e
      | .ok r => decodeFields r.1 r.2 kvs
    else if fieldMatches "target" kv.1 then
      decodeFields (storeTarget s saved kv.2).1 (storeTarget s saved kv.2).2 kvs
    else decodeFields s saved kvs

/-- The Go `decodeState.value` with a `Series` as target: an object is decoded member
by member, `null` is ignored, any other value is recorded as a type error. -/
def decodeSeries (s : Series) (saved : Option Error) (j : JSON) :
    Except Error (Series × Option Error) :=
  match j with
  | .object kvs => decodeFields s saved kvs
  | .null => .ok (s, saved)
  | j => .ok (s, saveError saved (.unmarshalType j.kind "graphite.Series"))

/-- The Go `decodeState.array` with the nil `[]Series` of `Render` as target: every
element is decoded into a fresh zero `Series`. -/
def decodeSeriesList (saved : Option Error) :
    List JSON → Except Error (List Series × Option Error)
  | [] => .ok ([], saved)
  | x :: xs =>
    match decodeSeries Series.zero saved x with
    | .error e => .error e
    | .ok r =>
      match decodeSeriesList r.2 xs with
      | .error e => .error e
      | .ok rs => .ok (r.1 :: rs.1, rs.2)

/-- Decoding one JSON value into `var data []Series`, as `json.Unmarshal` and
`(*json.Decoder).Decode` do: the error of an `UnmarshalJSON` method is returned
at once, otherwise the first recorded error, otherwise the slice. -/
def unmarshalSeries (j : JSON) : Except Error (List Series) :=
  match j with
  | .array xs =>
    match decodeSeriesList none xs with
    | .error e => .error e
    | .ok (_, some e) => .error e
    | .ok (data, none) => .ok data
  | .null => .ok []
  | j => .error (.unmarshalType j.kind "[]graphite.Series")

/-! ## `path` -/

/-- The elements of a path between its slashes. -/
def path.split : List Char → List (List Char)
  | [] => [[]]
  | c :: cs =>
    match path.split cs with
    | [] => [[]]
    | seg :: segs => if c = '/' then [] :: seg :: segs else (c :: seg) :: segs

/-- The pass of `path.Clean` over the elements of a path; `out` is the output
so far, last element first.  Empty elements and `.` are dropped, `..` removes
the element before it when that is a real one, is dropped at the root of a
rooted path and is kept otherwise. -/
def path.cleanElems (rooted : Bool) : List (List Char) → List (List Char) → List (List Char)
  | out, [] => out.reverse
  | out, seg :: rest =>
    if seg = [] ∨ seg = ['.'] then path.cleanElems rooted out rest
    else if seg = ['.', '.'] then
      match out with
      | top :: out1 =>
        if top = ['.', '.'] then path.cleanElems rooted (seg :: out) rest
        else path.cleanElems rooted out1 rest
      | [] =>
        if rooted then path.cleanElems rooted [] rest
        else path.cleanElems rooted [seg] rest
    else path.cleanElems rooted (seg :: out) rest

/-- The Go `path.Clean`: the shortest path name equivalent to `p` by purely lexical
processing; the empty result is `.`. -/
def path.Clean (p : String) : String :=
  if p = "" then "."
  else
    let rooted := p.data.head? = some '/'
    let elems := path.cleanElems rooted [] (path.split p.data)
    let out := (if rooted then ['/'] else []) ++ List.intercalate ['/'] elems
    if out = [] then "." else String.mk out

/-- The Go `path.Join`: the non-empty elements joined by slashes and cleaned; the
empty string when there is no non-empty element. -/
def path.Join (elem : List String) : String :=
  match elem.filter (fun e => e ≠ "") with
  | [] => ""
  | es => path.Clean (String.intercalate "/" es)

/-! ## `net/url` -/

/-- The fields of `url.URL` that the client reads or writes; the client
leaves every other field as it was given. -/
structure URL where
  Scheme : String
  Host : String
  Path : String
  RawQuery : String
  deriving DecidableEq, Repr

/-- The Go `url.Values`, a `map[string][]string`, as an association list with one
entry per key. -/
abbrev url.Values := List (String × List String)

/-- The map lookup `v[key]` together with its presence flag. -/
def url.Values.lookup (v : url.Values) (key : String) : Option (List String) :=
  (v.find? (fun kv => kv.1 == key)).map (fun kv => kv.2)

/-- The Go `Values.Set`: the key gets the single value, replacing what it had. -/
def url.Values.Set (v : url.Values) (key value : String) : url.Values :=
  (key, [value]) :: v.filter (fun kv => kv.1 ≠ key)

/-- An upper-case hexadecimal digit. -/
def upperHex (n : Nat) : Char :=
  if n < 10 then Char.ofNat (48 + n) else Char.ofNat (55 + n)

/-- The escaping of one byte in a query component: letters, digits and
`-_.~` stay, a space becomes `+`, every other byte becomes `%XX`. -/
def escapeByte (b : Nat) : List Char :=
  if (48 ≤ b ∧ b ≤ 57) ∨ (65 ≤ b ∧ b ≤ 90) ∨ (97 ≤ b ∧ b ≤ 122)
      ∨ b = 45 ∨ b = 95 ∨ b = 46 ∨ b = 126 then [Char.ofNat b]
  else if b = 32 then ['+']
  else ['%', upperHex (b / 16), upperHex (b % 16)]

/-- The UTF-8 encoding of a code point, as byte values. -/
def utf8Bytes (c : Nat) : List Nat :=
  if c < 0x80 then [c]
  else if c < 0x800 then [0xC0 + c / 64, 0x80 + c % 64]
  else if c < 0x10000 then [0xE0 + c / 4096, 0x80 + c / 64 % 64, 0x80 + c % 64]
  else [0xF0 + c / 262144, 0x80 + c / 4096 % 64, 0x80 + c / 64 % 64, 0x80 + c % 64]

/-- The Go `url.QueryEscape`, over the UTF-8 bytes of the string. -/
def url.QueryEscape (s : String) : String :=
  String.mk (s.data.flatMap (fun c => (utf8Bytes c.toNat).flatMap escapeByte))

/-- The order of Go strings, `a < b`: lexicographic by bytes, which for UTF-8
text is lexicographic by code points. -/
def stringLess : List Char → List Char → Bool
  | [], [] => false
  | [], _ :: _ => true
  | _ :: _, [] => false
  | a :: as, b :: bs => decide (a.toNat < b.toNat) || (a.toNat == b.toNat && stringLess as bs)

/-- Insertion of an entry into a list of entries sorted by key. -/
def url.insertByKey (kv : String × List String) : url.Values → url.Values
  | [] => [kv]
  | x :: xs =>
    if stringLess kv.1.data x.1.data then kv :: x :: xs else x :: url.insertByKey kv xs

/-- The entries of the map in ascending key order. -/
def url.Values.sorted (v : url.Values) : url.Values :=
  v.foldr url.insertByKey []

/-- The Go `Values.Encode`: the values in URL-encoded form, `key=value` pairs joined
by `&`, sorted by key. -/
def url.Values.Encode (v : url.Values) : String :=
  String.intercalate "&"
    (v.sorted.flatMap (fun kv =>
      kv.2.map (fun x => url.QueryEscape kv.1 ++ "=" ++ url.QueryEscape x)))

/-! ## Times and the request -/

/-- A `time.Time` instant: whole seconds since the Unix epoch and the
nanoseconds within the second. -/
structure time.Time where
  sec : Int
  nsec : Nat
  deriving DecidableEq, Repr

/-- The Go `Time.Unix`: the number of seconds elapsed since January 1, 1970 UTC. -/
def time.Time.Unix (t : time.Time) : Int := t.sec

/-- RelativeTime is a relative time format. Examples would include "-4h",
"-6d", etc. -/
structure RelativeTime where
  Time : String
  deriving DecidableEq, Repr

/-- String returns the string representation of the time. -/
def RelativeTime.String (t : RelativeTime) : String := t.Time

/-- AbsoluteTime represents an absolute moment in time. -/
structure AbsoluteTime where
  Time : time.Time
  deriving DecidableEq, Repr

/-- String returns the unix timestamp of the time. -/
def AbsoluteTime.String (t : AbsoluteTime) : String :=
  strconv.FormatInt t.Time.Unix

/-- Time is an interface for defining time periods; its implementations in
the package are `*RelativeTime` and `*AbsoluteTime`. -/
inductive Time where
  | relative (t : RelativeTime)
  | absolute (t : AbsoluteTime)
  deriving DecidableEq, Repr

/-- The method `String` of the interface, dispatched on the implementation. -/
def Time.String : Time → String
  | .relative t => t.String
  | .absolute t => t.String

/-- RenderRequest represents a request to the graphite server to retrieve
one or more time series; `none` is the nil interface of a bound that was not
supplied. -/
structure RenderRequest where
  From : Option Time
  Until : Option Time
  Targets : List String
  deriving DecidableEq, Repr

/-- Values returns a `url.Values` with all of the attributes of the
request. -/
def RenderRequest.Values (r : RenderRequest) : url.Values :=
  let values : url.Values := [("format", ["json"]), ("target", r.Targets)]
  let values :=
    match r.From with
    | some t => values.Set "from" t.String
    | none => values
  let values :=
    match r.Until with
    | some t => values.Set "until" t.String
    | none => values
  values

/-! ## The client -/

/-- An `*http.Request` as far as the client determines it: the method, the URL
and the body (`none` for the nil body). -/
structure Request where
  Method : String
  URL : URL
  Body : Option String
  deriving DecidableEq, Repr

/-- The body stream of a response, by what reading its first JSON value
gives: the error of the reader or of the scanner (a failed read, an empty
stream, a byte sequence that is not JSON), or the value. -/
inductive Body where
  | bad (e : Error)
  | value (j : JSON)

/-- An `*http.Response`: the status code and the body. -/
structure Response where
  StatusCode : Int
  Body : Body

/-- Doer is an abstraction around an http client: `Do` returns a response or
an error. -/
structure Doer where
  Do : Request → Except Error Response

/-- Client talks to the Graphite HTTP API. -/
structure Client where
  client : Doer
  url : URL

/-- NewClient initializes a client. The url passed here should be the base
url of your graphite installation. Thus, if your render API url is located at
"https://www.example.com:9090/foo/render", it should be
"https://www.example.com:9090/foo". -/
def NewClient (doer : Doer) (u : URL) : Client :=
  { client := doer, url := { u with Path := path.Join [u.Path, "render"] } }

/-- The Go `http.NewRequest(method, u.String(), nil)`.  The function parses the URL
string again; `urlError u` is the error of that parse when it fails.  On
success the request has the given method, the URL `u` and no body. -/
def http.NewRequest (urlError : URL → Option Error) (method : String) (u : URL) :
    Except Error Request :=
  match urlError u with
  | some err => .error err
  | none => .ok { Method := method, URL := u, Body := none }

/-- The Go `json.NewDecoder(body).Decode(&data)` with `var data []Series`. -/
def Body.Decode : Body → Except Error (List Series)
  | .bad e => .error e
  | .value j => unmarshalSeries j

/-- What a call of `Render` does to the outside, in order. -/
inductive Event where
  /-- The call `c.client.Do(req)`. -/
  | doRequest (req : Request)
  /-- The decoder reads the body of the response. -/
  | decodeBody
  /-- The deferred `resp.Body.Close()`. -/
  | closeBody
  deriving DecidableEq, Repr

/-- The outcome of `Render`: the two returned values and the trace of what the
call did. -/
structure RenderResult where
  resp : RenderResponse
  err : Option Error
  trace : List Event
  deriving DecidableEq, Repr

/-- The URL that `Render` builds for the request `r`. -/
def Client.requestURL (c : Client) (r : RenderRequest) : URL :=
  let u := c.url
  let u := { u with Path := path.Join [u.Path, "render"] }
  let u := { u with RawQuery := r.Values.Encode }
  u

/-- Render initiates a request to the graphite server, parses and returns
the results. -/
def Client.Render (urlError : URL → Option Error) (c : Client) (r : RenderRequest) :
    RenderResult :=
  let u := c.requestURL r
  match http.NewRequest urlError "GET" u with
  | .error err => ⟨⟨[]⟩, some (.wrap "constructing request" err), []⟩
  | .ok req =>
    match c.client.Do req with
    | .error err => ⟨⟨[]⟩, some (.wrap "executing request" err), [.doRequest req]⟩
    | .ok resp =>
      if resp.StatusCode ≠ 200 then
        ⟨⟨[]⟩, some (.errorf ("unexpected status code " ++ toString resp.StatusCode)),
          [.doRequest req, .closeBody]⟩
      else
        match resp.Body.Decode with
        | .error err =>
          ⟨⟨[]⟩, some (.wrap "decoding response" err),
            [.doRequest req, .decodeBody, .closeBody]⟩
        | .ok data => ⟨⟨data⟩, none, [.doRequest req, .decodeBody, .closeBody]⟩

/-- A doer that answers every request with the given response. -/
def constDoer (resp : Response) : Doer := ⟨fun _ => .ok resp⟩

/-- A doer that fails every request with the given error. -/
def failingDoer (e : Error) : Doer := ⟨fun _ => .error e⟩

/-! ## Vocabulary of the properties -/

/-- The element at index `i` of a datapoint array is one that its slot takes
without a type error: `null` or a number in the `float64` range at index 0,
`null` or an `int64` integer literal at index 1, and past that any value free
of numbers outside the `float64` range. -/
def slotAccepts (i : Nat) (j : JSON) : Bool :=
  if i = 0 then
    match j with
    | .null => true
    | .number n => (strconv.ParseFloat n).isSome
    | _ => false
  else if i = 1 then
    match j with
    | .null => true
    | .number n => (strconv.ParseInt n).isSome
    | _ => false
  else j.rangeError.isNone

/-- Every element of `xs`, the first one standing at index `i`, is accepted by
its slot. -/
def slotsAccept : Nat → List JSON → Bool
  | _, [] => true
  | i, x :: xs => slotAccepts i x && slotsAccept (i + 1) xs

/-- The value in the timestamp position is one that the decoder refuses: a
string, a boolean, an array, an object, or a number that is not an `int64`
integer literal (it has a fraction part or an exponent part, or is out of
range). -/
def badTimestamp : JSON → Bool
  | .null => false
  | .number n => (strconv.ParseInt n).isNone
  | _ => true

/-- A well-formed datapoint pair `[value, timestamp]` and the `DataPoint` it
stands for: the value is `null` or a number in the `float64` range, the
timestamp an `int64` integer literal. -/
inductive WellFormedPoint : JSON → DataPoint → Prop where
  | absent (t : JNumber) (ts : Int) (ht : strconv.ParseInt t = some ts) :
      WellFormedPoint (.array [.null, .number t]) ⟨ts, none⟩
  | present (n : JNumber) (f : Float64) (t : JNumber) (ts : Int)
      (hn : strconv.ParseFloat n = some f) (ht : strconv.ParseInt t = some ts) :
      WellFormedPoint (.array [.number n, .number t]) ⟨ts, some f⟩

/-- The rational number that a JSON number literal denotes: sign, integer
part plus fraction digits over the matching power of ten, times ten to the
exponent. -/
def JNumber.toRat (n : JNumber) : ℚ :=
  (if n.neg then -1 else 1)
    * ((n.int : ℚ) + (digitsValue n.frac : ℚ) / (10 : ℚ) ^ n.frac.length)
    * (10 : ℚ) ^ n.expValue

/-- The fields are those of a finite binary64 value: the exponent field is not
the all-ones pattern of infinities and NaNs, the fraction has 52 bits. -/
def Float64.finite (f : Float64) : Prop :=
  f.expo ≤ 2046 ∧ f.frac < 2 ^ 52

/-- The rational number that a finite binary64 value denotes: a subnormal
`frac * 2^-1074` when the exponent field is 0, and else
`(2^52 + frac) * 2^(expo - 1075)`, negated when the sign bit is set. -/
def Float64.toRat (f : Float64) : ℚ :=
  (if f.sign then -1 else 1)
    * (if f.expo = 0 then (f.frac : ℚ) * (2 : ℚ) ^ (-1074 : ℤ)
       else ((2 : ℚ) ^ 52 + (f.frac : ℚ)) * (2 : ℚ) ^ ((f.expo : ℤ) - 1075))

/-- The bound of the `float64` range under rounding to nearest: the midpoint
between the largest finite value, `2^1024 - 2^971`, and `2^1024`.  A magnitude
below it rounds to a finite value. -/
def float64Limit : ℚ := (2 : ℚ) ^ 1024 - (2 : ℚ) ^ 970

/-- The member key selects neither field of `Series`: the decoder skips the
member, whatever its value is. -/
def unknownKey (k : String) : Bool :=
  !fieldMatches "datapoints" k && !fieldMatches "target" k

/-- A well-formed series object and the `Series` it stands for: one member
whose key selects `datapoints` (exactly or by case folding), an array of
well-formed pairs, and one member whose key selects `target`, a string, in
either order; before, between and after them any members with other keys
(such as `tags`), whose values are free. -/
inductive WellFormedSeries : JSON → Series → Prop where
  | datapointsFirst (pre mid post : List (String × JSON)) (kd kt : String)
      (ps : List JSON) (dps : List DataPoint) (target : String)
      (hpre : ∀ kv ∈ pre, unknownKey kv.1 = true)
      (hmid : ∀ kv ∈ mid, unknownKey kv.1 = true)
      (hpost : ∀ kv ∈ post, unknownKey kv.1 = true)
      (hkd : fieldMatches "datapoints" kd = true) (hkt : fieldMatches "target" kt = true)
      (h : List.Forall₂ WellFormedPoint ps dps) :
      WellFormedSeries
        (.object (pre ++ ((kd, .array ps) :: (mid ++ ((kt, .string target) :: post)))))
        ⟨dps, target⟩
  | targetFirst (pre mid post : List (String × JSON)) (kd kt : String)
      (ps : List JSON) (dps : List DataPoint) (target : String)
      (hpre : ∀ kv ∈ pre, unknownKey kv.1 = true)
      (hmid : ∀ kv ∈ mid, unknownKey kv.1 = true)
      (hpost : ∀ kv ∈ post, unknownKey kv.1 = true)
      (hkd : fieldMatches "datapoints" kd = true) (hkt : fieldMatches "target" kt = true)
      (h : List.Forall₂ WellFormedPoint ps dps) :
      WellFormedSeries
        (.object (pre ++ ((kt, .string target) :: (mid ++ ((kd, .array ps) :: post)))))
        ⟨dps, target⟩

/-- The outcome of a decoding step is a failure: it was aborted by an error,
or it has recorded one. -/
def failed {α : Type} : Except Error (α × Option Error) → Bool
  | .error _ => true
  | .ok r => r.2.isSome

/-- The datapoint `j` is malformed: `DataPoint.UnmarshalJSON` returns an error
for it. -/
def pointFails (j : JSON) : Bool :=
  (DataPoint.UnmarshalJSON DataPoint.zero j).2.isSome

/-- The element `j` of the response array is malformed: decoding it into a
`Series` is a failure. -/
def seriesFails (j : JSON) : Bool :=
  failed (decodeSeries Series.zero none j)

/-- The first of two recorded errors. -/
def firstError (saved later : Option Error) : Option Error :=
  match saved with
  | some e => some e
  | none => later

/-- Reading a run of decimal digits, most significant first, onto the value
`acc` read so far; a character that is not a digit fails. -/
def readDigits : Nat → List Char → Option Nat
  | acc, [] => some acc
  | acc, c :: cs =>
    if 48 ≤ c.toNat ∧ c.toNat ≤ 57 then readDigits (10 * acc + (c.toNat - 48)) cs
    else none

/-- Reading an unsigned decimal integer: one digit or more and nothing
else. -/
def readNat (cs : List Char) : Option Nat :=
  match cs with
  | [] => none
  | c :: cs => readDigits 0 (c :: cs)

/-- Reading a string as a base-10 integer: an optional minus sign, then one
digit or more, and nothing else (no point, no exponent, no suffix). -/
def readDecimal (s : String) : Option Int :=
  match s.data with
  | '-' :: cs => Option.map (fun (n : Nat) => -(n : Int)) (readNat cs)
  | cs => Option.map (fun (n : Nat) => (n : Int)) (readNat cs)

/-! ## Lemmas on the decoder -/

theorem saveError_eq_firstError (saved : Option Error) (e : Error) :
    saveError saved e = firstError saved (some e) := by
  cases saved <;> rfl

theorem firstError_none_right (saved : Option Error) : firstError saved none = saved := by
  cases saved <;> rfl

theorem firstError_assoc (a b c : Option Error) :
    firstError (firstError a b) c = firstError a (firstError b c) := by
  cases a <;> rfl

theorem storeValue_error_indep (p q : DataPoint) (saved : Option Error) (j : JSON) :
    (storeValue p saved j).2 = (storeValue q saved j).2 := by
  cases j <;> simp [storeValue]
  case number n => cases strconv.ParseFloat n <;> rfl

theorem storeTimestamp_error_indep (p q : DataPoint) (saved : Option Error) (j : JSON) :
    (storeTimestamp p saved j).2 = (storeTimestamp q saved j).2 := by
  cases j <;> simp [storeTimestamp]
  case number n => cases strconv.ParseInt n <;> rfl

theorem unmarshalSlots_error_indep (xs : List JSON) :
    ∀ (p q : DataPoint) (saved : Option Error) (i : Nat),
      (unmarshalSlots p saved i xs).2 = (unmarshalSlots q saved i xs).2 := by
  induction xs with
  | nil => intro p q saved i; rfl
  | cons x xs ih =>
    intro p q saved i
    unfold unmarshalSlots
    by_cases h0 : i = 0
    · simp only [h0, if_true]
      rw [storeValue_error_indep p q saved x]
      exact ih _ _ _ _
    · by_cases h1 : i = 1
      · simp only [h0, h1, if_true, if_false]
        rw [storeTimestamp_error_indep p q saved x]
        exact ih _ _ _ _
      · simp only [h0, h1, if_false]
        exact ih _ _ _ _

/-- Whether `UnmarshalJSON` returns an error, and which, does not depend on
what the receiver held before. -/
theorem UnmarshalJSON_error_indep (p q : DataPoint) (j : JSON) :
    (DataPoint.UnmarshalJSON p j).2 = (DataPoint.UnmarshalJSON q j).2 := by
  cases j <;> simp [DataPoint.UnmarshalJSON, unmarshalTmp]
  case array xs =>
    have h := unmarshalSlots_error_indep xs p q none 0
    cases hp : (unmarshalSlots p none 0 xs).2 <;>
      cases hq : (unmarshalSlots q none 0 xs).2 <;> simp_all
    split <;> simp

/-- A recorded error stays recorded over the remaining elements. -/
theorem unmarshalSlots_saved (xs : List JSON) :
    ∀ (p : DataPoint) (e : Error) (i : Nat),
      (unmarshalSlots p (some e) i xs).2 = some e := by
  induction xs with
  | nil => intro p e i; rfl
  | cons x xs ih =>
    intro p e i
    unfold unmarshalSlots
    have hv : (storeValue p (some e) x).2 = some e := by
      cases x <;> simp [storeValue, saveError]
      case number n => cases strconv.ParseFloat n <;> rfl
    have ht : (storeTimestamp p (some e) x).2 = some e := by
      cases x <;> simp [storeTimestamp, saveError]
      case number n => cases strconv.ParseInt n <;> rfl
    have hi : storeInterface (some e) x = some e := by
      unfold storeInterface; split <;> rfl
    split
    · rw [hv]; exact ih _ _ _
    · split
      · rw [ht]; exact ih _ _ _
      · rw [hi]; exact ih _ _ _

/-- Elements past the first two, all accepted, leave the datapoint and the
recorded error as they are. -/
theorem unmarshalSlots_accept_tail (xs : List JSON) :
    ∀ (p : DataPoint) (saved : Option Error) (i : Nat), 2 ≤ i →
      slotsAccept i xs = true → unmarshalSlots p saved i xs = (p, saved) := by
  induction xs with
  | nil => intro p saved i _ _; rfl
  | cons x xs ih =>
    intro p saved i hi h
    have h0 : i ≠ 0 := by omega
    have h1 : i ≠ 1 := by omega
    simp only [slotsAccept, slotAccepts, h0, h1, if_false, Bool.and_eq_true,
      Option.isNone_iff_eq_none] at h
    unfold unmarshalSlots
    simp only [h0, h1, if_false, storeInterface, h.1]
    exact ih p saved (i + 1) (by omega) h.2

/-- Elements all accepted by their slots record no error. -/
theorem unmarshalSlots_accept (xs : List JSON) (p : DataPoint) :
    slotsAccept 0 xs = true → (unmarshalSlots p none 0 xs).2 = none := by
  intro h
  match xs, h with
  | [], _ => rfl
  | [v], h =>
    simp only [slotsAccept, slotAccepts, if_true, Bool.and_true] at h
    cases v <;> simp_all [unmarshalSlots, storeValue]
    case number n =>
      cases hn : strconv.ParseFloat n <;> simp_all
  | v :: t :: rest, h =>
    simp only [slotsAccept, slotAccepts, if_true, Bool.and_eq_true] at h
    obtain ⟨hv, ht, hrest⟩ := h
    simp only [zero_add, one_ne_zero, if_false, if_true] at ht hrest
    have hv2 : (storeValue p none v).2 = none := by
      cases v <;> simp_all [storeValue]
      case number n => cases hn : strconv.ParseFloat n <;> simp_all
    have ht2 : ∀ q, (storeTimestamp q none t).2 = none := by
      intro q
      cases t <;> simp_all [storeTimestamp]
      case number n => cases hn : strconv.ParseInt n <;> simp_all
    unfold unmarshalSlots
    simp only [if_true]
    unfold unmarshalSlots
    simp only [zero_add, one_ne_zero, if_false, if_true]
    rw [hv2, ht2]
    rw [unmarshalSlots_accept_tail rest _ none 2 (by omega) hrest]

/-- The error that the elements of an array record is a type error. -/
theorem unmarshalSlots_typeError (xs : List JSON) :
    ∀ (p : DataPoint) (i : Nat),
      (unmarshalSlots p none i xs).2 = none ∨
      ∃ v t, (unmarshalSlots p none i xs).2 = some (.unmarshalType v t) := by
  induction xs with
  | nil => intro p i; exact Or.inl rfl
  | cons x xs ih =>
    intro p i
    have hv : (storeValue p none x).2 = none ∨
        ∃ v t, (storeValue p none x).2 = some (.unmarshalType v t) := by
      cases x <;> simp [storeValue, saveError]
      case number n => cases strconv.ParseFloat n <;> simp
    have ht : (storeTimestamp p none x).2 = none ∨
        ∃ v t, (storeTimestamp p none x).2 = some (.unmarshalType v t) := by
      cases x <;> simp [storeTimestamp, saveError]
      case number n => cases strconv.ParseInt n <;> simp
    have hi : storeInterface none x = none ∨
        ∃ v t, storeInterface none x = some (.unmarshalType v t) := by
      unfold storeInterface
      split <;> simp [saveError]
    unfold unmarshalSlots
    split
    · rcases hv with h | ⟨v, t, h⟩
      · rw [h]; exact ih _ _
      · rw [h, unmarshalSlots_saved]; exact Or.inr ⟨v, t, rfl⟩
    · split
      · rcases ht with h | ⟨v, t, h⟩
        · rw [h]; exact ih _ _
        · rw [h, unmarshalSlots_saved]; exact Or.inr ⟨v, t, rfl⟩
      · rcases hi with h | ⟨v, t, h⟩
        · rw [h]; exact ih _ _
        · rw [h, unmarshalSlots_saved]; exact Or.inr ⟨v, t, rfl⟩

/-- An element that its slot does not accept records an error. -/
theorem unmarshalSlots_reject (xs : List JSON) :
    ∀ (p : DataPoint) (saved : Option Error) (i : Nat), slotsAccept i xs = false →
      (unmarshalSlots p saved i xs).2 ≠ none := by
  induction xs with
  | nil => intro p saved i h; simp [slotsAccept] at h
  | cons x xs ih =>
    intro p saved i h
    simp only [slotsAccept, Bool.and_eq_false_iff] at h
    unfold unmarshalSlots
    by_cases hx : slotAccepts i x = true
    · have hxs : slotsAccept (i + 1) xs = false := by
        rcases h with h | h
        · rw [hx] at h; exact absurd h (by decide)
        · exact h
      split
      · exact ih _ _ _ hxs
      · split
        · exact ih _ _ _ hxs
        · exact ih _ _ _ hxs
    · have hstay : ∀ (q : DataPoint) (sv : Option Error), sv ≠ none →
          (unmarshalSlots q sv (i + 1) xs).2 ≠ none := by
        intro q sv hsv
        cases sv with
        | none => exact absurd rfl hsv
        | some e => rw [unmarshalSlots_saved]; simp
      unfold slotAccepts at hx
      split
      · rename_i h0
        simp only [h0, if_true] at hx
        apply hstay
        cases x <;> cases saved <;> simp_all [storeValue, saveError]
      · split
        · rename_i h0 h1
          simp only [h0, h1, if_true, if_false] at hx
          apply hstay
          cases x <;> cases saved <;> simp_all [storeTimestamp, saveError]
        · rename_i h0 h1
          simp only [h0, h1, if_false] at hx
          apply hstay
          unfold storeInterface
          cases hr : x.rangeError with
          | none => simp [hr] at hx
          | some n => cases saved <;> simp [saveError]

/-! ## Lemmas on `strconv.ParseFloat` -/

theorem bitLen_zero (fuel : Nat) : bitLen fuel 0 = 0 := by
  cases fuel <;> simp [bitLen]

/-- The function `bitLen` with enough fuel counts the binary digits. -/
theorem bitLen_spec (fuel : Nat) :
    ∀ n : Nat, n ≤ fuel → 0 < n →
      0 < bitLen fuel n ∧ 2 ^ (bitLen fuel n - 1) ≤ n ∧ n < 2 ^ bitLen fuel n := by
  induction fuel with
  | zero => intro n h hn; omega
  | succ fuel ih =>
    intro n h hn
    have hn0 : n ≠ 0 := by omega
    simp only [bitLen, hn0, if_false]
    by_cases h2 : n / 2 = 0
    · have h1 : n = 1 := by omega
      subst h1
      simp [bitLen_zero]
    · obtain ⟨hk, hlo, hhi⟩ := ih (n / 2) (by omega) (by omega)
      obtain ⟨k, hk1⟩ : ∃ k, bitLen fuel (n / 2) = k + 1 := ⟨bitLen fuel (n / 2) - 1, by omega⟩
      rw [hk1] at hlo hhi ⊢
      simp only [Nat.add_sub_cancel] at hlo ⊢
      rw [pow_succ] at hhi ⊢
      refine ⟨by omega, by omega, ?_⟩
      rw [pow_succ]
      omega

theorem zpow_two_split (z : ℤ) :
    (2 : ℚ) ^ z = (2 : ℚ) ^ z.toNat / (2 : ℚ) ^ (-z).toNat := by
  rcases le_or_lt 0 z with h | h
  · have h1 : (-z).toNat = 0 := by omega
    have h2 : ((z.toNat : ℕ) : ℤ) = z := Int.toNat_of_nonneg h
    rw [h1, pow_zero, div_one, ← zpow_natCast, h2]
  · have h1 : z.toNat = 0 := by omega
    have h2 : (((-z).toNat : ℕ) : ℤ) = -z := Int.toNat_of_nonneg (by omega)
    rw [h1, pow_zero, one_div, ← zpow_natCast, h2, zpow_neg, inv_inv]

theorem zpow_ten_split (z : ℤ) :
    (10 : ℚ) ^ z = (10 : ℚ) ^ z.toNat / (10 : ℚ) ^ (-z).toNat := by
  rcases le_or_lt 0 z with h | h
  · have h1 : (-z).toNat = 0 := by omega
    have h2 : ((z.toNat : ℕ) : ℤ) = z := Int.toNat_of_nonneg h
    rw [h1, pow_zero, div_one, ← zpow_natCast, h2]
  · have h1 : z.toNat = 0 := by omega
    have h2 : (((-z).toNat : ℕ) : ℤ) = -z := Int.toNat_of_nonneg (by omega)
    rw [h1, pow_zero, one_div, ← zpow_natCast, h2, zpow_neg, inv_inv]

/-- Scaling numerator and denominator by powers of two divides the quotient by
the power of two with the integer exponent. -/
theorem scaled_quotient (X Y : ℕ) (z : ℤ) :
    ((X * 2 ^ (-z).toNat : ℕ) : ℚ) / ((Y * 2 ^ z.toNat : ℕ) : ℚ)
      = (X : ℚ) / (Y : ℚ) / (2 : ℚ) ^ z := by
  rw [zpow_two_split z]
  push_cast
  have h1 : ((2 : ℚ) ^ z.toNat) ≠ 0 := by positivity
  have h2 : ((2 : ℚ) ^ (-z).toNat) ≠ 0 := by positivity
  by_cases hY : (Y : ℚ) = 0
  · simp [hY]
  · field_simp

/-- The rounding of a quotient: within one half of it, even on a tie. -/
theorem roundHalfEven_spec (a b : ℕ) (hb : 0 < b) :
    |((roundHalfEven a b : ℕ) : ℚ) - (a : ℚ) / (b : ℚ)| ≤ 1 / 2 ∧
    (|((roundHalfEven a b : ℕ) : ℚ) - (a : ℚ) / (b : ℚ)| = 1 / 2 →
      roundHalfEven a b % 2 = 0) := by
  have hbq : (0 : ℚ) < (b : ℚ) := by exact_mod_cast hb
  have ha : (a : ℚ) = (b : ℚ) * ((a / b : ℕ) : ℚ) + ((a % b : ℕ) : ℚ) := by
    exact_mod_cast (Nat.div_add_mod a b).symm
  have hr : a % b < b := Nat.mod_lt _ hb
  have hab : (a : ℚ) / (b : ℚ) = ((a / b : ℕ) : ℚ) + ((a % b : ℕ) : ℚ) / (b : ℚ) := by
    rw [ha]; field_simp; ring
  set x : ℚ := ((a % b : ℕ) : ℚ) / (b : ℚ) with hx
  have hx0 : 0 ≤ x := by positivity
  unfold roundHalfEven
  simp only
  by_cases h1 : 2 * (a % b) < b
  · have hlt : x < 1 / 2 := by
      rw [hx, div_lt_iff₀ hbq]
      have : ((2 * (a % b) : ℕ) : ℚ) < (b : ℚ) := by exact_mod_cast h1
      push_cast at this
      linarith
    simp only [h1, if_true]
    rw [hab]
    have e : ((a / b : ℕ) : ℚ) - (((a / b : ℕ) : ℚ) + x) = -x := by ring
    rw [e, abs_neg, abs_of_nonneg hx0]
    exact ⟨by linarith, fun h => by linarith⟩
  · by_cases h2 : b < 2 * (a % b)
    · have hgt : 1 / 2 < x := by
        rw [hx, lt_div_iff₀ hbq]
        have : (b : ℚ) < ((2 * (a % b) : ℕ) : ℚ) := by exact_mod_cast h2
        push_cast at this
        linarith
      have hx1 : x < 1 := by
        rw [hx, div_lt_one hbq]
        exact_mod_cast hr
      simp only [h1, h2, if_true, if_false]
      rw [hab]
      push_cast
      have e : ((a / b : ℕ) : ℚ) + 1 - (((a / b : ℕ) : ℚ) + x) = 1 - x := by ring
      rw [e, abs_of_nonneg (by linarith)]
      exact ⟨by linarith, fun h => by linarith⟩
    · have heq : x = 1 / 2 := by
        have h3 : 2 * (a % b) = b := by omega
        rw [hx, div_eq_iff (ne_of_gt hbq)]
        have : ((2 * (a % b) : ℕ) : ℚ) = (b : ℚ) := by exact_mod_cast h3
        push_cast at this
        linarith
      simp only [h1, h2, if_false]
      by_cases h3 : a / b % 2 = 0
      · simp only [h3, if_true]
        rw [hab]
        have e : ((a / b : ℕ) : ℚ) - (((a / b : ℕ) : ℚ) + x) = -x := by ring
        rw [e, abs_neg, abs_of_nonneg hx0]
        exact ⟨by linarith, fun _ => trivial⟩
      · simp only [h3, if_false]
        rw [hab]
        push_cast
        have e : ((a / b : ℕ) : ℚ) + 1 - (((a / b : ℕ) : ℚ) + x) = 1 - x := by ring
        rw [e, abs_of_nonneg (by linarith)]
        exact ⟨by linarith, fun _ => by omega⟩

theorem bitLen_bounds (n : ℕ) (hn : 0 < n) :
    (2 : ℚ) ^ ((bitLen n n : ℤ) - 1) ≤ (n : ℚ) ∧ (n : ℚ) < (2 : ℚ) ^ (bitLen n n : ℤ) := by
  obtain ⟨h0, h1, h2⟩ := bitLen_spec n n le_rfl hn
  have e1 : ((bitLen n n : ℤ) - 1) = ((bitLen n n - 1 : ℕ) : ℤ) := by omega
  constructor
  · rw [e1, zpow_natCast]
    exact_mod_cast h1
  · rw [zpow_natCast]
    exact_mod_cast h2

/-- The binary exponent of a positive quotient. -/
theorem binaryExponent_spec (num den : ℕ) (hn : 0 < num) (hd : 0 < den) :
    (2 : ℚ) ^ binaryExponent num den ≤ (num : ℚ) / (den : ℚ) ∧
    (num : ℚ) / (den : ℚ) < (2 : ℚ) ^ (binaryExponent num den + 1) := by
  obtain ⟨hA1, hA2⟩ := bitLen_bounds num hn
  obtain ⟨hB1, hB2⟩ := bitLen_bounds den hd
  have hdq : (0 : ℚ) < (den : ℚ) := by exact_mod_cast hd
  have two : (2 : ℚ) ≠ 0 := by norm_num
  set a : ℤ := (bitLen num num : ℤ) with ha
  set b : ℤ := (bitLen den den : ℤ) with hb
  have hcond : (den * 2 ^ (a - b).toNat ≤ num * 2 ^ (-(a - b)).toNat)
      ↔ (2 : ℚ) ^ (a - b) ≤ (num : ℚ) / (den : ℚ) := by
    have hs := scaled_quotient num den (a - b)
    have hpos : (0 : ℚ) < ((den * 2 ^ (a - b).toNat : ℕ) : ℚ) := by
      have : 0 < den * 2 ^ (a - b).toNat := Nat.mul_pos hd (by positivity)
      exact_mod_cast this
    have hz : (0 : ℚ) < (2 : ℚ) ^ (a - b) := by positivity
    constructor
    · intro h
      have h1 : ((den * 2 ^ (a - b).toNat : ℕ) : ℚ) ≤ ((num * 2 ^ (-(a - b)).toNat : ℕ) : ℚ) := by
        exact_mod_cast h
      have h2 : 1 ≤ ((num * 2 ^ (-(a - b)).toNat : ℕ) : ℚ) / ((den * 2 ^ (a - b).toNat : ℕ) : ℚ) := by
        rw [le_div_iff₀ hpos]; linarith
      rw [hs, le_div_iff₀ hz] at h2
      linarith
    · intro h
      have h2 : 1 ≤ ((num * 2 ^ (-(a - b)).toNat : ℕ) : ℚ) / ((den * 2 ^ (a - b).toNat : ℕ) : ℚ) := by
        rw [hs, le_div_iff₀ hz]; linarith
      rw [le_div_iff₀ hpos] at h2
      have h3 : ((den * 2 ^ (a - b).toNat : ℕ) : ℚ) ≤ ((num * 2 ^ (-(a - b)).toNat : ℕ) : ℚ) := by
        linarith
      exact_mod_cast h3
  unfold binaryExponent
  simp only [← ha, ← hb]
  by_cases hc : den * 2 ^ (a - b).toNat ≤ num * 2 ^ (-(a - b)).toNat
  · simp only [hc, if_true]
    refine ⟨hcond.mp hc, ?_⟩
    rw [div_lt_iff₀ hdq]
    have e : (2 : ℚ) ^ (a - b + 1) * (2 : ℚ) ^ (b - 1) = (2 : ℚ) ^ a := by
      rw [← zpow_add₀ two]; congr 1; ring
    have hz : (0 : ℚ) < (2 : ℚ) ^ (a - b + 1) := by positivity
    calc (num : ℚ) < (2 : ℚ) ^ a := hA2
      _ = (2 : ℚ) ^ (a - b + 1) * (2 : ℚ) ^ (b - 1) := e.symm
      _ ≤ (2 : ℚ) ^ (a - b + 1) * (den : ℚ) := by
          apply mul_le_mul_of_nonneg_left hB1 (le_of_lt hz)
  · simp only [hc, if_false]
    have hlt : (num : ℚ) / (den : ℚ) < (2 : ℚ) ^ (a - b) := by
      by_contra h
      exact hc (hcond.mpr (not_lt.mp h))
    refine ⟨?_, by simpa using hlt⟩
    rw [le_div_iff₀ hdq]
    have e : (2 : ℚ) ^ (a - b - 1) * (2 : ℚ) ^ b = (2 : ℚ) ^ (a - 1) := by
      rw [← zpow_add₀ two]; congr 1; ring
    have hz : (0 : ℚ) < (2 : ℚ) ^ (a - b - 1) := by positivity
    calc (2 : ℚ) ^ (a - b - 1) * (den : ℚ) ≤ (2 : ℚ) ^ (a - b - 1) * (2 : ℚ) ^ b := by
          apply mul_le_mul_of_nonneg_left (le_of_lt hB2) (le_of_lt hz)
      _ = (2 : ℚ) ^ (a - 1) := e
      _ ≤ (num : ℚ) := hA1

/-- An integer other than the nearest one is no nearer, and is as near only on
a tie. -/
theorem nearest_integer (m k : ℤ) (x : ℚ) (h : |(m : ℚ) - x| ≤ 1 / 2) :
    |(m : ℚ) - x| ≤ |(k : ℚ) - x| ∧
    (k ≠ m → |(k : ℚ) - x| = |(m : ℚ) - x| → |(m : ℚ) - x| = 1 / 2) := by
  by_cases hkm : k = m
  · subst hkm
    exact ⟨le_rfl, fun h1 => absurd rfl h1⟩
  · have h1 : (1 : ℚ) ≤ |(k : ℚ) - (m : ℚ)| := by
      have : (1 : ℤ) ≤ |k - m| := Int.one_le_abs (sub_ne_zero.mpr hkm)
      have h2 : ((1 : ℤ) : ℚ) ≤ ((|k - m| : ℤ) : ℚ) := by exact_mod_cast this
      simpa using h2
    have h2 : |(k : ℚ) - (m : ℚ)| ≤ |(k : ℚ) - x| + |(m : ℚ) - x| := by
      have := abs_sub_le (k : ℚ) x (m : ℚ)
      rwa [abs_sub_comm x (m : ℚ)] at this
    refine ⟨by linarith, fun _ heq => ?_⟩
    linarith

/-- A finite binary64 value is an integer of fewer than 54 bits times a power
of two whose exponent is at least `-1022 - 52`. -/
theorem Float64.toRat_decompose (g : Float64) (hg : g.finite) :
    ∃ (k E : ℤ), -1022 ≤ E ∧ |(k : ℚ)| < (2 : ℚ) ^ 53 ∧
      g.toRat = (k : ℚ) * (2 : ℚ) ^ (E - 52) := by
  obtain ⟨_, hfrac⟩ := hg
  have hf : ((g.frac : ℕ) : ℚ) < (2 : ℚ) ^ 52 := by exact_mod_cast hfrac
  have hf0 : (0 : ℚ) ≤ ((g.frac : ℕ) : ℚ) := by positivity
  by_cases h0 : g.expo = 0
  · cases hs : g.sign
    · refine ⟨(g.frac : ℤ), -1022, le_rfl, ?_, ?_⟩
      · rw [Int.cast_natCast, abs_of_nonneg hf0]; linarith
      · simp [Float64.toRat, h0, hs]
    · refine ⟨-(g.frac : ℤ), -1022, le_rfl, ?_, ?_⟩
      · rw [Int.cast_neg, Int.cast_natCast, abs_neg, abs_of_nonneg hf0]; linarith
      · simp [Float64.toRat, h0, hs]
  · have hE : -1022 ≤ (g.expo : ℤ) - 1023 := by omega
    have e1 : ((g.expo : ℤ) - 1075) = ((g.expo : ℤ) - 1023 - 52) := by ring
    cases hs : g.sign
    · refine ⟨(2 ^ 52 + g.frac : ℕ), (g.expo : ℤ) - 1023, hE, ?_, ?_⟩
      · rw [Int.cast_natCast, abs_of_nonneg (by positivity)]
        push_cast; linarith
      · simp only [Float64.toRat, h0, hs, if_false, e1]
        push_cast; ring
    · refine ⟨-((2 ^ 52 + g.frac : ℕ) : ℤ), (g.expo : ℤ) - 1023, hE, ?_, ?_⟩
      · rw [Int.cast_neg, Int.cast_natCast, abs_neg, abs_of_nonneg (by positivity)]
        push_cast; linarith
      · simp only [Float64.toRat, h0, hs, if_true, if_false, e1]
        push_cast; ring

/-- On the grid of spacing `2^(e-52)`, the nearest point to `q` is at least as
near to `q` as every finite binary64 value, and as near only on a tie. -/
theorem grid_nearest (e : ℤ) (q : ℚ) (m : ℕ)
    (hm : |(m : ℚ) - q / (2 : ℚ) ^ (e - 52)| ≤ 1 / 2)
    (hq : (2 : ℚ) ^ e ≤ q ∨ e = -1022)
    (g : Float64) (hg : g.finite) :
    |(m : ℚ) * (2 : ℚ) ^ (e - 52) - q| ≤ |g.toRat - q| ∧
    (g.toRat ≠ (m : ℚ) * (2 : ℚ) ^ (e - 52) →
      |g.toRat - q| = |(m : ℚ) * (2 : ℚ) ^ (e - 52) - q| →
      |(m : ℚ) - q / (2 : ℚ) ^ (e - 52)| = 1 / 2) := by
  have two : (2 : ℚ) ≠ 0 := by norm_num
  set U : ℚ := (2 : ℚ) ^ (e - 52) with hU
  have hUpos : 0 < U := by positivity
  set x : ℚ := q / U with hx
  have hscale : ∀ k : ℚ, |k * U - q| = U * |k - x| := by
    intro k
    have : k * U - q = U * (k - x) := by rw [hx]; field_simp
    rw [this, abs_mul, abs_of_pos hUpos]
  obtain ⟨k, E, hE, hk, hval⟩ := Float64.toRat_decompose g hg
  by_cases hEe : e ≤ E
  · have hpow : (2 : ℚ) ^ (E - 52) = (((2 : ℤ) ^ (E - e).toNat : ℤ) : ℚ) * U := by
      have h1 : (((E - e).toNat : ℕ) : ℤ) = E - e := Int.toNat_of_nonneg (by omega)
      push_cast
      rw [hU, ← zpow_natCast, h1, ← zpow_add₀ two]
      congr 1; ring
    have hval2 : g.toRat = ((k * (2 : ℤ) ^ (E - e).toNat : ℤ) : ℚ) * U := by
      rw [hval, hpow]; push_cast; ring
    have hmz : ((m : ℤ) : ℚ) = (m : ℚ) := by simp
    obtain ⟨n1, n2⟩ := nearest_integer (m : ℤ) (k * (2 : ℤ) ^ (E - e).toNat) x
      (by rw [hmz]; exact hm)
    rw [hmz] at n1 n2
    rw [hval2, hscale, hscale]
    refine ⟨mul_le_mul_of_nonneg_left n1 (le_of_lt hUpos), ?_⟩
    intro hne heq
    apply n2
    · intro hkm
      apply hne
      rw [hkm, hmz]
    · exact mul_left_cancel₀ (ne_of_gt hUpos) heq
  · have hq2 : (2 : ℚ) ^ e ≤ q := by
      rcases hq with h | h
      · exact h
      · omega
    have h2e : (2 : ℚ) ^ e = (2 : ℚ) ^ 52 * U := by
      rw [hU, ← zpow_natCast, ← zpow_add₀ two]; congr 1; push_cast; ring
    have hglt : |g.toRat| < (2 : ℚ) ^ e := by
      rw [hval, abs_mul, abs_of_pos (show (0 : ℚ) < (2 : ℚ) ^ (E - 52) by positivity)]
      have h3 : (2 : ℚ) ^ 53 * (2 : ℚ) ^ (E - 52) = (2 : ℚ) ^ (E + 1) := by
        rw [← zpow_natCast, ← zpow_add₀ two]; congr 1; push_cast; ring
      have h4 : (2 : ℚ) ^ (E + 1) ≤ (2 : ℚ) ^ e :=
        zpow_le_zpow_right₀ (by norm_num) (by omega)
      have h5 : |(k : ℚ)| * (2 : ℚ) ^ (E - 52) < (2 : ℚ) ^ 53 * (2 : ℚ) ^ (E - 52) :=
        mul_lt_mul_of_pos_right hk (by positivity)
      linarith
    have hg1 : g.toRat < (2 : ℚ) ^ e := lt_of_le_of_lt (le_abs_self _) hglt
    have hdist : q - (2 : ℚ) ^ e < |g.toRat - q| := by
      rw [abs_sub_comm, abs_of_nonneg (by linarith)]
      linarith
    have hmz : ((m : ℤ) : ℚ) = (m : ℚ) := by simp
    obtain ⟨n1, _⟩ := nearest_integer (m : ℤ) ((2 : ℤ) ^ 52) x (by rw [hmz]; exact hm)
    rw [hmz] at n1
    have hmd : |(m : ℚ) * U - q| ≤ q - (2 : ℚ) ^ e := by
      have h6 : |(((2 : ℤ) ^ 52 : ℤ) : ℚ) * U - q| = q - (2 : ℚ) ^ e := by
        have h7 : (((2 : ℤ) ^ 52 : ℤ) : ℚ) * U = (2 : ℚ) ^ e := by
          rw [h2e]; norm_num
        rw [h7, abs_sub_comm, abs_of_nonneg (by linarith)]
      rw [← h6, hscale, hscale]
      exact mul_le_mul_of_nonneg_left n1 (le_of_lt hUpos)
    refine ⟨by linarith, fun _ heq => ?_⟩
    linarith

theorem JNumber.toRat_eq (n : JNumber) :
    n.toRat = (if n.neg then -1 else 1) * ((n.digits : ℚ) * (10 : ℚ) ^ n.exp10) := by
  have ten : (10 : ℚ) ≠ 0 := by norm_num
  unfold JNumber.toRat JNumber.digits JNumber.exp10 JNumber.fracValue
  rw [zpow_sub₀ ten, zpow_natCast]
  push_cast
  field_simp
  ring_nf

theorem JNumber.abs_toRat (n : JNumber) :
    |n.toRat| = (n.digits : ℚ) * (10 : ℚ) ^ n.exp10 := by
  rw [JNumber.toRat_eq, abs_mul]
  have h1 : |(if n.neg then (-1 : ℚ) else 1)| = 1 := by
    cases n.neg <;> simp
  rw [h1, one_mul, abs_of_nonneg (by positivity)]

theorem JNumber.quotient (n : JNumber) :
    ((n.digits * 10 ^ n.exp10.toNat : ℕ) : ℚ) / ((10 ^ (-n.exp10).toNat : ℕ) : ℚ)
      = |n.toRat| := by
  rw [JNumber.abs_toRat, zpow_ten_split]
  push_cast
  ring

/-- What `strconv.ParseFloat` computes for a literal with a digit other than
zero: the integer `m` nearest to the magnitude on the grid of the exponent
`e`, and the fields made from the two. -/
theorem ParseFloat_round (n : JNumber) (hD : n.digits ≠ 0) :
    ∃ (m : ℕ) (e : ℤ), -1022 ≤ e ∧
      |(m : ℚ) - |n.toRat| / (2 : ℚ) ^ (e - 52)| ≤ 1 / 2 ∧
      (|(m : ℚ) - |n.toRat| / (2 : ℚ) ^ (e - 52)| = 1 / 2 → m % 2 = 0) ∧
      ((2 : ℚ) ^ e ≤ |n.toRat| ∨ e = -1022) ∧
      |n.toRat| < (2 : ℚ) ^ (e + 1) ∧
      strconv.ParseFloat n =
        (if 1023 < (if m = 2 ^ 53 then e + 1 else e) then none
         else if (if m = 2 ^ 53 then 2 ^ 52 else m) < 2 ^ 52 then
           some ⟨n.neg, 0, if m = 2 ^ 53 then 2 ^ 52 else m⟩
         else some ⟨n.neg, ((if m = 2 ^ 53 then e + 1 else e) + 1023).toNat,
           (if m = 2 ^ 53 then 2 ^ 52 else m) - 2 ^ 52⟩) := by
  have hnum : 0 < n.digits * 10 ^ n.exp10.toNat :=
    Nat.mul_pos (Nat.pos_of_ne_zero hD) (by positivity)
  have hden : 0 < 10 ^ (-n.exp10).toNat := by positivity
  obtain ⟨hb1, hb2⟩ := binaryExponent_spec _ _ hnum hden
  rw [JNumber.quotient] at hb1 hb2
  set eb : ℤ := binaryExponent (n.digits * 10 ^ n.exp10.toNat) (10 ^ (-n.exp10).toNat)
    with heb
  have hB : 0 < 10 ^ (-n.exp10).toNat * 2 ^ (max eb (-1022) - 52).toNat :=
    Nat.mul_pos hden (by positivity)
  obtain ⟨hr1, hr2⟩ := roundHalfEven_spec
    (n.digits * 10 ^ n.exp10.toNat * 2 ^ (-(max eb (-1022) - 52)).toNat)
    (10 ^ (-n.exp10).toNat * 2 ^ (max eb (-1022) - 52).toNat) hB
  rw [scaled_quotient, JNumber.quotient] at hr1 hr2
  refine ⟨_, max eb (-1022), le_max_right _ _, hr1, hr2, ?_, ?_, ?_⟩
  · by_cases h : -1022 ≤ eb
    · left; rw [max_eq_left h]; exact hb1
    · right; rw [max_eq_right (by omega)]
  · have h1 : (2 : ℚ) ^ (eb + 1) ≤ (2 : ℚ) ^ (max eb (-1022) + 1) :=
      zpow_le_zpow_right₀ (by norm_num) (by have := le_max_left eb (-1022); omega)
    linarith
  · simp only [strconv.ParseFloat, hD, if_false, ← heb]

theorem Float64.toRat_subnormal (s : Bool) (M : ℕ) :
    Float64.toRat ⟨s, 0, M⟩ = (if s then -1 else 1) * ((M : ℚ) * (2 : ℚ) ^ (-1022 - 52 : ℤ)) := by
  simp [Float64.toRat]

theorem Float64.toRat_normal (s : Bool) (E : ℤ) (M : ℕ) (hE : -1022 ≤ E)
    (hM : 2 ^ 52 ≤ M) :
    Float64.toRat ⟨s, (E + 1023).toNat, M - 2 ^ 52⟩
      = (if s then -1 else 1) * ((M : ℚ) * (2 : ℚ) ^ (E - 52)) := by
  have h0 : (E + 1023).toNat ≠ 0 := by omega
  have h1 : (((E + 1023).toNat : ℕ) : ℤ) = E + 1023 := Int.toNat_of_nonneg (by omega)
  have h2 : ((M - 2 ^ 52 : ℕ) : ℚ) = (M : ℚ) - (2 : ℚ) ^ 52 := by
    rw [Nat.cast_sub hM]; push_cast; ring
  simp only [Float64.toRat, h0, if_false, h1, h2]
  have e : E + 1023 - 1075 = E - 52 := by ring
  rw [e]
  ring

theorem Float64.toRat_flip (g : Float64) :
    Float64.toRat ⟨!g.sign, g.expo, g.frac⟩ = -g.toRat := by
  cases hs : g.sign <;> by_cases h0 : g.expo = 0 <;> simp [Float64.toRat, hs, h0]

/-- The integer that `strconv.ParseFloat` rounds to has at most 54 bits, and 53
or more when the magnitude reaches the binade of the exponent. -/
theorem round_bounds (m : ℕ) (e : ℤ) (q : ℚ)
    (hm : |(m : ℚ) - q / (2 : ℚ) ^ (e - 52)| ≤ 1 / 2)
    (hq : q < (2 : ℚ) ^ (e + 1)) :
    m ≤ 2 ^ 53 ∧ ((2 : ℚ) ^ e ≤ q → 2 ^ 52 ≤ m) := by
  have two : (2 : ℚ) ≠ 0 := by norm_num
  have hU : (0 : ℚ) < (2 : ℚ) ^ (e - 52) := by positivity
  have h1 : (2 : ℚ) ^ (e + 1) = (2 : ℚ) ^ 53 * (2 : ℚ) ^ (e - 52) := by
    rw [← zpow_natCast, ← zpow_add₀ two]; congr 1; push_cast; ring
  have h2 : (2 : ℚ) ^ e = (2 : ℚ) ^ 52 * (2 : ℚ) ^ (e - 52) := by
    rw [← zpow_natCast, ← zpow_add₀ two]; congr 1; push_cast; ring
  obtain ⟨hlo, hhi⟩ := abs_le.mp hm
  constructor
  · have hx : q / (2 : ℚ) ^ (e - 52) < (2 : ℚ) ^ 53 := by
      rw [div_lt_iff₀ hU, ← h1]; exact hq
    by_contra hc
    have hc2 : 2 ^ 53 + 1 ≤ m := by omega
    have hc3 : ((2 ^ 53 + 1 : ℕ) : ℚ) ≤ (m : ℚ) := by exact_mod_cast hc2
    push_cast at hc3
    linarith
  · intro hge
    have hx : (2 : ℚ) ^ 52 ≤ q / (2 : ℚ) ^ (e - 52) := by
      rw [le_div_iff₀ hU, ← h2]; exact hge
    by_contra hc
    have hc2 : m + 1 ≤ 2 ^ 52 := by omega
    have hc3 : ((m + 1 : ℕ) : ℚ) ≤ ((2 ^ 52 : ℕ) : ℚ) := by exact_mod_cast hc2
    push_cast at hc3
    linarith

/-- The result of `strconv.ParseFloat`, when there is one, is the finite
binary64 value with the sign of the literal whose magnitude is `m` on the grid
of the exponent `e`. -/
theorem ParseFloat_value (n : JNumber) (f : Float64) (hD : n.digits ≠ 0)
    (h : strconv.ParseFloat n = some f) :
    ∃ (m : ℕ) (e : ℤ),
      |(m : ℚ) - |n.toRat| / (2 : ℚ) ^ (e - 52)| ≤ 1 / 2 ∧
      (|(m : ℚ) - |n.toRat| / (2 : ℚ) ^ (e - 52)| = 1 / 2 → f.frac % 2 = 0) ∧
      ((2 : ℚ) ^ e ≤ |n.toRat| ∨ e = -1022) ∧
      f.finite ∧ f.sign = n.neg ∧
      f.toRat = (if n.neg then -1 else 1) * ((m : ℚ) * (2 : ℚ) ^ (e - 52)) := by
  obtain ⟨m, e, he, hm, heven, hq, hlt, hres⟩ := ParseFloat_round n hD
  obtain ⟨hm53, hm52⟩ := round_bounds m e |n.toRat| hm hlt
  have two : (2 : ℚ) ≠ 0 := by norm_num
  rw [hres] at h
  refine ⟨m, e, hm, ?_, hq, ?_⟩
  · intro htie
    have hme := heven htie
    by_cases h53 : m = 2 ^ 53
    · simp only [h53, if_true] at h
      split at h
      · exact absurd h (by simp)
      · simp only [lt_irrefl, if_false, Option.some.injEq] at h
        rw [← h]
        simp
    · simp only [h53, if_false] at h
      split at h
      · exact absurd h (by simp)
      · split at h
        · simp only [Option.some.injEq] at h
          rw [← h]; exact hme
        · simp only [Option.some.injEq] at h
          rw [← h]
          simp only
          omega
  · by_cases h53 : m = 2 ^ 53
    · simp only [h53, if_true] at h
      split at h
      · exact absurd h (by simp)
      · rename_i he1
        simp only [lt_irrefl, if_false, Option.some.injEq] at h
        have hval := Float64.toRat_normal n.neg (e + 1) (2 ^ 52) (by omega) le_rfl
        rw [← h]
        refine ⟨⟨by simp only; omega, by simp⟩, rfl, ?_⟩
        rw [hval, h53]
        have e2 : (2 : ℚ) ^ (e + 1 - 52) = 2 * (2 : ℚ) ^ (e - 52) := by
          have : e + 1 - 52 = 1 + (e - 52) := by ring
          rw [this, zpow_add₀ two, zpow_one]
        rw [e2]
        push_cast
        ring
    · simp only [h53, if_false] at h
      split at h
      · exact absurd h (by simp)
      · rename_i he1
        split at h
        · rename_i hsub
          simp only [Option.some.injEq] at h
          have hee : e = -1022 := by
            rcases hq with h1 | h1
            · exact absurd (hm52 h1) (by omega)
            · exact h1
          rw [← h]
          refine ⟨⟨by simp, hsub⟩, rfl, ?_⟩
          rw [Float64.toRat_subnormal, hee]
        · rename_i hsub
          simp only [Option.some.injEq] at h
          have hval := Float64.toRat_normal n.neg e m he (by omega)
          rw [← h]
          refine ⟨⟨by simp only; omega, by simp only; omega⟩, rfl, hval⟩

theorem JNumber.toRat_sign (n : JNumber) :
    n.toRat = (if n.neg then -1 else 1) * |n.toRat| := by
  rw [JNumber.abs_toRat, ← JNumber.toRat_eq]

/-- The result of `strconv.ParseFloat` is a finite binary64 value with the sign
of the literal that is at least as near to the value of the literal as every
finite binary64 value; when another value is as near, the result is the one
with the even fraction. -/
theorem ParseFloat_nearest (n : JNumber) (f : Float64)
    (h : strconv.ParseFloat n = some f) :
    f.finite ∧ f.sign = n.neg ∧
    ∀ g : Float64, g.finite →
      |f.toRat - n.toRat| ≤ |g.toRat - n.toRat| ∧
      (g.toRat ≠ f.toRat → |g.toRat - n.toRat| = |f.toRat - n.toRat| →
        f.frac % 2 = 0) := by
  by_cases hD : n.digits = 0
  · have hf : f = ⟨n.neg, 0, 0⟩ := by
      simp only [strconv.ParseFloat, hD, if_true, Option.some.injEq] at h
      exact h.symm
    have hn : n.toRat = 0 := by rw [JNumber.toRat_eq, hD]; simp
    have hfr : f.toRat = 0 := by rw [hf]; simp [Float64.toRat]
    refine ⟨by rw [hf]; exact ⟨by simp, by simp⟩, by rw [hf], ?_⟩
    intro g _
    rw [hfr, hn]
    refine ⟨by simp, fun _ _ => by simp [hf]⟩
  · obtain ⟨m, e, hm, heven, hq, hfin, hsign, hval⟩ := ParseFloat_value n f hD h
    refine ⟨hfin, hsign, ?_⟩
    intro g hg
    have hn := JNumber.toRat_sign n
    obtain ⟨q, hqd⟩ : ∃ q : ℚ, q = |n.toRat| := ⟨_, rfl⟩
    rw [← hqd] at hm heven hq hn
    cases hneg : n.neg
    · simp only [hneg, Bool.false_eq_true, if_false, one_mul] at hval hn
      obtain ⟨g1, g2⟩ := grid_nearest e q m hm hq g hg
      rw [hval, hn]
      exact ⟨g1, fun hne heq => heven (g2 hne heq)⟩
    · simp only [hneg, if_true] at hval hn
      have hg2 : Float64.finite ⟨!g.sign, g.expo, g.frac⟩ := hg
      obtain ⟨g1, g2⟩ := grid_nearest e q m hm hq ⟨!g.sign, g.expo, g.frac⟩ hg2
      rw [Float64.toRat_flip] at g1 g2
      have e1 : f.toRat - n.toRat = -((m : ℚ) * (2 : ℚ) ^ (e - 52) - q) := by
        rw [hval, hn]; ring
      have e2 : g.toRat - n.toRat = -(-g.toRat - q) := by
        rw [hn]; ring
      rw [e1, e2, abs_neg, abs_neg]
      refine ⟨g1, fun hne heq => heven (g2 ?_ heq)⟩
      intro hc
      apply hne
      rw [hval, ← hc]
      ring

/-- The literals that `strconv.ParseFloat` refuses are those of magnitude
`2^1024 - 2^970` or more. -/
theorem ParseFloat_none_iff (n : JNumber) :
    strconv.ParseFloat n = none ↔ float64Limit ≤ |n.toRat| := by
  have hlim : float64Limit = ((2 : ℚ) ^ 53 - 1 / 2) * (2 : ℚ) ^ 971 := by
    unfold float64Limit; norm_num
  have hlim2 : (2 : ℚ) ^ 1023 ≤ float64Limit := by
    unfold float64Limit; norm_num
  have hlim3 : float64Limit ≤ (2 : ℚ) ^ 1024 := by
    unfold float64Limit; norm_num
  have hlim0 : 0 < float64Limit := by
    unfold float64Limit; norm_num
  by_cases hD : n.digits = 0
  · have hn : n.toRat = 0 := by rw [JNumber.toRat_eq, hD]; simp
    rw [hn, abs_zero]
    simp only [strconv.ParseFloat, hD, if_true]
    constructor
    · intro h; exact absurd h (by simp)
    · intro h; linarith
  · obtain ⟨m, e, he, hm, heven, hq, hlt, hres⟩ := ParseFloat_round n hD
    obtain ⟨hm53, hm52⟩ := round_bounds m e |n.toRat| hm hlt
    obtain ⟨hlo, hhi⟩ := abs_le.mp hm
    have hbig : 1024 ≤ e → float64Limit ≤ |n.toRat| := by
      intro h1
      have h2 : (2 : ℚ) ^ e ≤ |n.toRat| := by
        rcases hq with h | h
        · exact h
        · omega
      have h3 : (2 : ℚ) ^ (1024 : ℤ) ≤ (2 : ℚ) ^ e := zpow_le_zpow_right₀ (by norm_num) h1
      have h4 : (2 : ℚ) ^ (1024 : ℤ) = (2 : ℚ) ^ 1024 := by norm_num
      linarith
    have hU : e = 1023 → (2 : ℚ) ^ (e - 52) = (2 : ℚ) ^ 971 := by
      intro h1; rw [h1]; norm_num
    rw [hres]
    constructor
    · intro h
      have he1 : 1023 < (if m = 2 ^ 53 then e + 1 else e) := by
        by_contra hc
        rw [if_neg hc] at h
        by_cases hsub : (if m = 2 ^ 53 then 2 ^ 52 else m) < 2 ^ 52
        · rw [if_pos hsub] at h; exact Option.some_ne_none _ h
        · rw [if_neg hsub] at h; exact Option.some_ne_none _ h
      by_cases h53 : m = 2 ^ 53
      · simp only [h53, if_true] at he1
        by_cases h1 : 1024 ≤ e
        · exact hbig h1
        · have h2 : e = 1023 := by omega
          rw [hU h2, h53] at hlo hhi
          push_cast at hlo hhi
          have hp : (0 : ℚ) < (2 : ℚ) ^ 971 := by positivity
          have h3 : (2 : ℚ) ^ 53 - 1 / 2 ≤ |n.toRat| / (2 : ℚ) ^ 971 := by linarith
          rw [le_div_iff₀ hp] at h3
          rw [hlim]; exact h3
      · simp only [h53, if_false] at he1
        exact hbig (by omega)
    · intro h
      have he1 : 1023 < (if m = 2 ^ 53 then e + 1 else e) := by
        by_contra hc
        have hc1 : e ≤ 1023 := by
          by_cases h53 : m = 2 ^ 53
          · simp only [h53, if_true] at hc; omega
          · simp only [h53, if_false] at hc; omega
        by_cases h2 : e = 1023
        · have h53 : m ≠ 2 ^ 53 := by
            intro h53
            simp only [h53, if_true, h2] at hc
            omega
          rw [hU h2] at hlo hhi heven
          have hp : (0 : ℚ) < (2 : ℚ) ^ 971 := by positivity
          have hx : (2 : ℚ) ^ 53 - 1 / 2 ≤ |n.toRat| / (2 : ℚ) ^ 971 := by
            rw [le_div_iff₀ hp, ← hlim]; exact h
          have hmge : 2 ^ 53 - 1 ≤ m := by
            by_contra hc2
            have hc3 : m + 2 ≤ 2 ^ 53 := by omega
            have hc4 : ((m + 2 : ℕ) : ℚ) ≤ ((2 ^ 53 : ℕ) : ℚ) := by exact_mod_cast hc3
            push_cast at hc4
            linarith
          have hmeq : m = 2 ^ 53 - 1 := by omega
          have hmq : (m : ℚ) = (2 : ℚ) ^ 53 - 1 := by
            rw [hmeq]; norm_num
          have hxeq : |n.toRat| / (2 : ℚ) ^ 971 = (2 : ℚ) ^ 53 - 1 / 2 := by
            rw [hmq] at hlo hhi
            linarith
          have htie : |(m : ℚ) - |n.toRat| / (2 : ℚ) ^ 971| = 1 / 2 := by
            rw [hxeq, hmq]
            norm_num
          have := heven htie
          omega
        · have h3 : (2 : ℚ) ^ (e + 1) ≤ (2 : ℚ) ^ (1023 : ℤ) :=
            zpow_le_zpow_right₀ (by norm_num) (by omega)
          have h4 : (2 : ℚ) ^ (1023 : ℤ) = (2 : ℚ) ^ 1023 := by norm_num
          linarith
      simp only [he1, if_true]

/-- The value slot accepts exactly the numbers of magnitude below
`2^1024 - 2^970`. -/
theorem slotAccepts_value_iff (n : JNumber) :
    slotAccepts 0 (.number n) = true ↔ |n.toRat| < float64Limit := by
  have h := ParseFloat_none_iff n
  simp only [slotAccepts, if_true]
  cases hf : strconv.ParseFloat n with
  | none =>
    rw [hf] at h
    simp only [Option.isSome_none, Bool.false_eq_true, false_iff, not_lt]
    exact h.mp rfl
  | some f =>
    rw [hf] at h
    simp only [Option.isSome_some, true_iff]
    by_contra hc
    exact absurd (h.mpr (not_lt.mp hc)) (by simp)

/-- The timestamp slot accepts exactly the integer literals in the `int64`
range. -/
theorem slotAccepts_timestamp_iff (n : JNumber) :
    slotAccepts 1 (.number n) = true ↔
      (n.frac = [] ∧ n.exp = none ∧
        -(2 : Int) ^ 63 ≤ n.intValue ∧ n.intValue ≤ (2 : Int) ^ 63 - 1) := by
  simp only [slotAccepts, one_ne_zero, if_false, if_true, strconv.ParseInt]
  by_cases h1 : n.frac ≠ [] ∨ n.exp.isSome = true
  · rw [if_pos h1]
    simp only [Option.isSome_none, Bool.false_eq_true, false_iff]
    rintro ⟨h2, h3, _⟩
    rcases h1 with h1 | h1
    · exact h1 h2
    · rw [h3] at h1; simp at h1
  · rw [if_neg h1]
    have h2 : n.frac = [] := by
      by_contra hc; exact h1 (Or.inl hc)
    have h3 : n.exp = none := by
      cases he : n.exp with
      | none => rfl
      | some e => exact absurd (Or.inr (by rw [he]; rfl)) h1
    by_cases h4 : -(2 : Int) ^ 63 ≤ n.intValue ∧ n.intValue ≤ (2 : Int) ^ 63 - 1
    · rw [if_pos h4]
      simp only [Option.isSome_some, true_iff]
      exact ⟨h2, h3, h4.1, h4.2⟩
    · rw [if_neg h4]
      simp only [Option.isSome_none, Bool.false_eq_true, false_iff]
      rintro ⟨_, _, h5, h6⟩
      exact h4 ⟨h5, h6⟩

/-! ## Decoding one datapoint -/

/-- C1, as amended: for every two-element array `[v, t]` in which `t` is an
integer literal (no fraction part, no exponent part) in the `int64` range,
and whatever the receiver held: when `v` is `null`, `UnmarshalJSON` succeeds
with `Timestamp = t` and the value absent; when `v` is a number of magnitude
below `2^1024 - 2^970`, it succeeds with `Timestamp = t` and the value present,
a finite `float64` with the sign of `v` that is nearest to `v` among all finite
`float64` values, the one with the even fraction on a tie; when `v` is a number
of that magnitude or more, it fails with the type error for `number` and the
literal. -/
theorem C1_unmarshal_pair (p : DataPoint) (t : JNumber)
    (hfrac : t.frac = []) (hexp : t.exp = none)
    (hlo : -(2 : Int) ^ 63 ≤ t.intValue) (hhi : t.intValue ≤ (2 : Int) ^ 63 - 1) :
    DataPoint.UnmarshalJSON p (.array [.null, .number t]) = (⟨t.intValue, none⟩, none) ∧
    (∀ n : JNumber, |n.toRat| < float64Limit →
      ∃ f : Float64,
        DataPoint.UnmarshalJSON p (.array [.number n, .number t])
          = (⟨t.intValue, some f⟩, none) ∧
        f.finite ∧ f.sign = n.neg ∧
        ∀ g : Float64, g.finite →
          |f.toRat - n.toRat| ≤ |g.toRat - n.toRat| ∧
          (g.toRat ≠ f.toRat → |g.toRat - n.toRat| = |f.toRat - n.toRat| →
            f.frac % 2 = 0)) ∧
    (∀ n : JNumber, float64Limit ≤ |n.toRat| →
      (DataPoint.UnmarshalJSON p (.array [.number n, .number t])).2
        = some (.unmarshalType ("number " ++ n.text) "float64")) := by
  have ht : strconv.ParseInt t = some t.intValue := by
    unfold strconv.ParseInt
    rw [if_neg (by simp [hfrac, hexp]), if_pos ⟨hlo, hhi⟩]
  refine ⟨?_, ?_, ?_⟩
  · simp [DataPoint.UnmarshalJSON, unmarshalTmp, unmarshalSlots, storeValue,
      storeTimestamp, ht]
  · intro n hn
    cases hf : strconv.ParseFloat n with
    | none => exact absurd ((ParseFloat_none_iff n).mp hf) (not_le.mpr hn)
    | some f =>
      obtain ⟨h1, h2, h3⟩ := ParseFloat_nearest n f hf
      refine ⟨f, ?_, h1, h2, h3⟩
      simp [DataPoint.UnmarshalJSON, unmarshalTmp, unmarshalSlots, storeValue,
        storeTimestamp, ht, hf]
  · intro n hn
    have hf := (ParseFloat_none_iff n).mpr hn
    simp [DataPoint.UnmarshalJSON, unmarshalTmp, unmarshalSlots, storeValue,
      storeTimestamp, ht, hf, saveError]

/-- C1, witness: `[null,1566577080]` gives the absent value and the timestamp
1566577080; `[3.5,1566577080]` gives a present value, which is 3.5 itself;
`[0,1566577080]` gives the value zero, which is present; `[1e400,1566577080]`
is refused. -/
theorem C1_unmarshal_pair_witness :
    DataPoint.UnmarshalJSON DataPoint.zero
        (.array [.null, .number ⟨false, 1566577080, [], none⟩])
      = (⟨1566577080, none⟩, none) ∧
    (∃ f : Float64,
      DataPoint.UnmarshalJSON DataPoint.zero
          (.array [.number ⟨false, 3, [5], none⟩, .number ⟨false, 1566577080, [], none⟩])
        = (⟨1566577080, some f⟩, none) ∧
      f.finite ∧ f.sign = false ∧
      ∀ g : Float64, g.finite →
        |f.toRat - JNumber.toRat ⟨false, 3, [5], none⟩|
          ≤ |g.toRat - JNumber.toRat ⟨false, 3, [5], none⟩| ∧
        (g.toRat ≠ f.toRat →
          |g.toRat - JNumber.toRat ⟨false, 3, [5], none⟩|
            = |f.toRat - JNumber.toRat ⟨false, 3, [5], none⟩| →
          f.frac % 2 = 0)) ∧
    (DataPoint.UnmarshalJSON DataPoint.zero
        (.array [.number ⟨false, 1, [], some ⟨false, none, [4, 0, 0]⟩⟩,
          .number ⟨false, 1566577080, [], none⟩])).2
      = some (.unmarshalType
          ("number " ++ JNumber.text ⟨false, 1, [], some ⟨false, none, [4, 0, 0]⟩⟩)
          "float64") ∧
    DataPoint.UnmarshalJSON DataPoint.zero
        (.array [.number ⟨false, 3, [5], none⟩, .number ⟨false, 1566577080, [], none⟩])
      = (⟨1566577080, some ⟨false, 1024, 3377699720527872⟩⟩, none) ∧
    Float64.toRat ⟨false, 1024, 3377699720527872⟩ = 7 / 2 ∧
    JNumber.toRat ⟨false, 3, [5], none⟩ = 7 / 2 ∧
    DataPoint.UnmarshalJSON DataPoint.zero
        (.array [.number ⟨false, 0, [], none⟩, .number ⟨false, 1566577080, [], none⟩])
      = (⟨1566577080, some Float64.zero⟩, none) :=
  ⟨(C1_unmarshal_pair DataPoint.zero ⟨false, 1566577080, [], none⟩ rfl rfl
      (by decide) (by decide)).1,
   (C1_unmarshal_pair DataPoint.zero ⟨false, 1566577080, [], none⟩ rfl rfl
      (by decide) (by decide)).2.1 ⟨false, 3, [5], none⟩
      (by
        have h5 : digitsValue [5] = 5 := by decide
        simp only [JNumber.toRat, JNumber.expValue, h5, float64Limit]
        rw [abs_lt]
        constructor <;> norm_num),
   (C1_unmarshal_pair DataPoint.zero ⟨false, 1566577080, [], none⟩ rfl rfl
      (by decide) (by decide)).2.2 ⟨false, 1, [], some ⟨false, none, [4, 0, 0]⟩⟩
      (by
        have h0 : digitsValue [] = 0 := by decide
        have hv : JExponent.value ⟨false, none, [4, 0, 0]⟩ = 400 := by decide
        simp only [JNumber.toRat, JNumber.expValue, h0, hv, float64Limit]
        norm_num),
   by decide,
   by norm_num [Float64.toRat],
   by
      have h5 : digitsValue [5] = 5 := by decide
      simp only [JNumber.toRat, JNumber.expValue, h5]
      norm_num,
   by decide⟩

/-- C1, counterexample: the number `1e400` in the value position, before the
integer timestamp 1566577080, is refused: it is outside the `float64`
range. -/
theorem C1_counterexample :
    (DataPoint.UnmarshalJSON DataPoint.zero
        (.array [.number ⟨false, 1, [], some ⟨false, none, [4, 0, 0]⟩⟩,
          .number ⟨false, 1566577080, [], none⟩])).2
      = some (.unmarshalType "number 1e400" "float64") := by
  set_option exponentiation.threshold 2000 in
  set_option maxRecDepth 100000 in
  decide

/-- C2, counterexample: with `null` in the timestamp position the decode
succeeds and the timestamp keeps the value it had, 0 in a fresh `DataPoint` and
7 in one that held 7. -/
theorem C2_counterexample :
    DataPoint.UnmarshalJSON DataPoint.zero (.array [.null, .null])
      = (DataPoint.zero, none) ∧
    DataPoint.UnmarshalJSON ⟨7, none⟩ (.array [.null, .null]) = (⟨7, none⟩, none) := by
  decide

/-- C3, counterexample: the one-element array `["x"]` fails with the type
error of its element, not with the wrong-number-of-fields error. -/
theorem C3_counterexample :
    (DataPoint.UnmarshalJSON DataPoint.zero (.array [.string "x"])).2
      = some (.unmarshalType "string" "float64") ∧
    (DataPoint.UnmarshalJSON DataPoint.zero (.array [.string "x"])).2
      ≠ some (.errorf "wrong number of fields in datapoint: 1 != 2") := by
  decide

/-- C3, as amended: an array whose number of elements `n` is not 2 always
fails.  When each element is one that its slot accepts, the error is the
wrong-number-of-fields error, whose message reports `n` and the expected 2;
when some element is not, the error is a type error of the decoder.  The
numbers that the first slot accepts are those of magnitude below
`2^1024 - 2^970`, the numbers that the second slot accepts are the integer
literals in the `int64` range. -/
theorem C3_wrong_number_of_fields (p : DataPoint) (xs : List JSON)
    (hlen : xs.length ≠ 2) :
    (∃ e, (DataPoint.UnmarshalJSON p (.array xs)).2 = some e) ∧
    (slotsAccept 0 xs = true →
      (DataPoint.UnmarshalJSON p (.array xs)).2
        = some (.errorf ("wrong number of fields in datapoint: "
            ++ toString xs.length ++ " != " ++ toString 2)) ∧
      (Error.errorf ("wrong number of fields in datapoint: "
            ++ toString xs.length ++ " != " ++ toString 2)).message
        = "wrong number of fields in datapoint: "
            ++ toString xs.length ++ " != " ++ toString 2) ∧
    (slotsAccept 0 xs = false →
      ∃ v t, (DataPoint.UnmarshalJSON p (.array xs)).2 = some (.unmarshalType v t)) ∧
    (∀ n : JNumber, slotAccepts 0 (.number n) = true ↔ |n.toRat| < float64Limit) ∧
    (∀ n : JNumber, slotAccepts 1 (.number n) = true ↔
      (n.frac = [] ∧ n.exp = none ∧
        -(2 : Int) ^ 63 ≤ n.intValue ∧ n.intValue ≤ (2 : Int) ^ 63 - 1)) := by
  refine ⟨?_, ?_, ?_, slotAccepts_value_iff, slotAccepts_timestamp_iff⟩
  · simp only [DataPoint.UnmarshalJSON, unmarshalTmp]
    cases h : (unmarshalSlots p none 0 xs).2 <;> simp [hlen]
  · intro hacc
    have h := unmarshalSlots_accept xs p hacc
    simp [DataPoint.UnmarshalJSON, unmarshalTmp, h, hlen, Error.message]
  · intro hrej
    have h1 := unmarshalSlots_reject xs p none 0 hrej
    rcases unmarshalSlots_typeError xs p 0 with h2 | ⟨v, t, h2⟩
    · exact absurd h2 h1
    · exact ⟨v, t, by simp [DataPoint.UnmarshalJSON, unmarshalTmp, h2]⟩

/-- C3, witness: the three-element array `[null,1566577080,true]` fails with
the message `wrong number of fields in datapoint: 3 != 2`, and the
three-element array `[null,1,1e400]` fails with a type error, the one for the
number `1e400`. -/
theorem C3_wrong_number_of_fields_witness :
    (DataPoint.UnmarshalJSON DataPoint.zero
        (.array [.null, .number ⟨false, 1566577080, [], none⟩, .bool true])).2
      = some (.errorf "wrong number of fields in datapoint: 3 != 2") ∧
    (∃ v t, (DataPoint.UnmarshalJSON DataPoint.zero
        (.array [.null, .number ⟨false, 1, [], none⟩,
          .number ⟨false, 1, [], some ⟨false, none, [4, 0, 0]⟩⟩])).2
      = some (.unmarshalType v t)) ∧
    (DataPoint.UnmarshalJSON DataPoint.zero
        (.array [.null, .number ⟨false, 1, [], none⟩,
          .number ⟨false, 1, [], some ⟨false, none, [4, 0, 0]⟩⟩])).2
      = some (.unmarshalType "number 1e400" "float64") :=
  ⟨((C3_wrong_number_of_fields DataPoint.zero
      [.null, .number ⟨false, 1566577080, [], none⟩, .bool true] (by decide)).2.1
    (by decide)).1,
   (C3_wrong_number_of_fields DataPoint.zero
      [.null, .number ⟨false, 1, [], none⟩,
        .number ⟨false, 1, [], some ⟨false, none, [4, 0, 0]⟩⟩] (by decide)).2.2.1
    (by
      set_option exponentiation.threshold 2000 in
      set_option maxRecDepth 100000 in
      decide),
   by
      set_option exponentiation.threshold 2000 in
      set_option maxRecDepth 100000 in
      decide⟩

/-! ## Lemmas on decoding series -/

theorem decodeDataPoints_fails (a : List JSON) :
    ∀ (old : List DataPoint) (d : JSON) (b : List JSON), pointFails d = true →
      ∃ e, decodeDataPoints old (a ++ d :: b) = .error e := by
  induction a with
  | nil =>
    intro old d b hd
    have h := UnmarshalJSON_error_indep (old.headD DataPoint.zero) DataPoint.zero d
    simp only [pointFails, Option.isSome_iff_exists] at hd
    obtain ⟨e, he⟩ := hd
    rw [he] at h
    refine ⟨e, ?_⟩
    simp only [List.nil_append, decodeDataPoints]
    cases hr : DataPoint.UnmarshalJSON (old.headD DataPoint.zero) d with
    | mk p1 err =>
      rw [hr] at h
      simp only at h
      subst h
      rfl
  | cons x a ih =>
    intro old d b hd
    obtain ⟨e, he⟩ := ih old.tail d b hd
    simp only [List.cons_append, decodeDataPoints]
    cases hr : DataPoint.UnmarshalJSON (old.headD DataPoint.zero) x with
    | mk p1 err =>
      cases err with
      | some e1 => exact ⟨e1, rfl⟩
      | none => exact ⟨e, by simp [he]⟩

theorem storeTarget_saved (s : Series) (saved : Option Error) (j : JSON) :
    storeTarget s saved j
      = ((storeTarget s none j).1, firstError saved (storeTarget s none j).2) := by
  cases j <;> cases saved <;> rfl

theorem storeDataPoints_saved (s : Series) (saved : Option Error) (j : JSON) :
    storeDataPoints s saved j
      = match storeDataPoints s none j with
        | .error e => .error e
        | .ok r => .ok (r.1, firstError saved r.2) := by
  cases j <;> cases saved <;> simp [storeDataPoints, saveError, firstError]
  all_goals (split <;> simp_all)

theorem decodeFields_saved (kvs : List (String × JSON)) :
    ∀ (s : Series) (saved : Option Error),
      decodeFields s saved kvs
        = match decodeFields s none kvs with
          | .error e => .error e
          | .ok r => .ok (r.1, firstError saved r.2) := by
  induction kvs with
  | nil => intro s saved; simp [decodeFields, firstError_none_right]
  | cons kv kvs ih =>
    intro s saved
    unfold decodeFields
    by_cases hd : fieldMatches "datapoints" kv.1 = true
    · simp only [hd, if_true]
      rw [storeDataPoints_saved s saved kv.2]
      cases h0 : storeDataPoints s none kv.2 with
      | error e => rfl
      | ok r =>
        simp only
        rw [ih r.1 (firstError saved r.2), ih r.1 r.2]
        cases decodeFields r.1 none kvs with
        | error e => rfl
        | ok r2 => simp [firstError_assoc]
    · by_cases ht : fieldMatches "target" kv.1 = true
      · simp only [hd, ht, if_true, if_false]
        rw [storeTarget_saved s saved kv.2]
        simp only
        rw [ih _ (firstError saved _), ih _ (storeTarget s none kv.2).2]
        cases decodeFields (storeTarget s none kv.2).1 none kvs with
        | error e => rfl
        | ok r2 => simp [firstError_assoc]
      · simp only [hd, ht, if_false]
        exact ih s saved

theorem decodeSeries_saved (s : Series) (saved : Option Error) (j : JSON) :
    decodeSeries s saved j
      = match decodeSeries s none j with
        | .error e => .error e
        | .ok r => .ok (r.1, firstError saved r.2) := by
  cases j <;> simp [decodeSeries, saveError_eq_firstError, firstError_none_right]
  case object kvs => exact decodeFields_saved kvs s saved
  all_goals (cases saved <;> rfl)

theorem failed_decodeFields_saved (kvs : List (String × JSON)) (s : Series) (e : Error) :
    failed (decodeFields s (some e) kvs) = true := by
  rw [decodeFields_saved]
  cases decodeFields s none kvs <;> simp [failed, firstError]

/-- A member of an object that fails to decode makes the object fail,
whatever precedes and follows it. -/
theorem failed_decodeFields_member (pre : List (String × JSON)) :
    ∀ (s : Series) (saved : Option Error) (kv : String × JSON)
      (post : List (String × JSON)),
      (∀ s1 saved1, failed (decodeFields s1 saved1 [kv]) = true) →
      failed (decodeFields s saved (pre ++ kv :: post)) = true := by
  induction pre with
  | nil =>
    intro s saved kv post h
    have h1 := h s saved
    simp only [List.nil_append]
    unfold decodeFields at h1 ⊢
    by_cases hd : fieldMatches "datapoints" kv.1 = true
    · simp only [hd, if_true] at h1 ⊢
      cases h0 : storeDataPoints s saved kv.2 with
      | error e => rfl
      | ok r =>
        rw [h0] at h1
        simp only
        cases hsv : r.2 with
        | none => simp [decodeFields, failed, hsv] at h1
        | some e => exact failed_decodeFields_saved post r.1 e
    · by_cases ht : fieldMatches "target" kv.1 = true
      · simp only [hd, ht, if_true, if_false] at h1 ⊢
        cases hsv : (storeTarget s saved kv.2).2 with
        | none => simp [decodeFields, failed, hsv] at h1
        | some e => exact failed_decodeFields_saved post _ e
      · simp only [hd, ht, if_false] at h1
        have h2 := h s none
        unfold decodeFields at h2
        simp [hd, ht, decodeFields, failed] at h2
  | cons x pre ih =>
    intro s saved kv post h
    simp only [List.cons_append]
    unfold decodeFields
    split
    · split
      · rfl
      · exact ih _ _ kv post h
    · split
      · exact ih _ _ kv post h
      · exact ih _ _ kv post h

theorem failed_decodeSeriesList (xs : List JSON) :
    ∀ (saved : Option Error),
      (saved.isSome = true ∨ ∃ x ∈ xs, seriesFails x = true) →
      failed (decodeSeriesList saved xs) = true := by
  induction xs with
  | nil =>
    intro saved h
    rcases h with h | ⟨x, hx, _⟩
    · simpa [decodeSeriesList, failed] using h
    · simp at hx
  | cons x xs ih =>
    intro saved h
    unfold decodeSeriesList
    rw [decodeSeries_saved Series.zero saved x]
    cases h0 : decodeSeries Series.zero none x with
    | error e => rfl
    | ok r =>
      simp only
      have hnext : failed (decodeSeriesList (firstError saved r.2) xs) = true := by
        apply ih
        rcases h with h | ⟨y, hy, hfy⟩
        · left
          cases saved with
          | none => simp at h
          | some e => rfl
        · rcases List.mem_cons.mp hy with rfl | hy
          · left
            simp only [seriesFails, h0, failed] at hfy
            cases saved with
            | none => simpa [firstError] using hfy
            | some e => rfl
          · right
            exact ⟨y, hy, hfy⟩
      cases h1 : decodeSeriesList (firstError saved r.2) xs with
      | error e => rfl
      | ok rs =>
        rw [h1] at hnext
        simpa [failed] using hnext

/-- A response array with a malformed element does not decode. -/
theorem unmarshalSeries_fails (xs : List JSON) (h : ∃ x ∈ xs, seriesFails x = true) :
    ∃ e, unmarshalSeries (.array xs) = .error e := by
  have hf := failed_decodeSeriesList xs none (Or.inr h)
  cases h0 : decodeSeriesList none xs with
  | error e => exact ⟨e, by simp only [unmarshalSeries, h0]⟩
  | ok r =>
    rw [h0] at hf
    obtain ⟨data, sv⟩ := r
    cases sv with
    | none => simp [failed] at hf
    | some e => exact ⟨e, by simp only [unmarshalSeries, h0]⟩

theorem foldName_of_fieldMatches (field key : String)
    (h : fieldMatches field key = true) : foldName key = foldName field := by
  simp only [fieldMatches, Bool.or_eq_true, beq_iff_eq] at h
  rcases h with h | h
  · rw [h]
  · exact h

theorem not_datapoints_of_target (key : String) (h : fieldMatches "target" key = true) :
    fieldMatches "datapoints" key = false := by
  have h1 := foldName_of_fieldMatches _ _ h
  cases h2 : fieldMatches "datapoints" key with
  | false => rfl
  | true =>
    have h3 := foldName_of_fieldMatches _ _ h2
    rw [h1] at h3
    exact absurd h3 (by decide)

/-- A `datapoints` member whose array holds a malformed datapoint fails. -/
theorem failed_member_point (k : String) (a b : List JSON) (d : JSON)
    (hk : fieldMatches "datapoints" k = true) (hd : pointFails d = true)
    (s : Series) (saved : Option Error) :
    failed (decodeFields s saved [(k, .array (a ++ d :: b))]) = true := by
  obtain ⟨e, he⟩ := decodeDataPoints_fails a s.DataPoints d b hd
  simp [decodeFields, hk, storeDataPoints, he, failed]

/-- A `datapoints` member that is neither an array nor `null` fails. -/
theorem failed_member_datapoints (k : String) (v : JSON)
    (hk : fieldMatches "datapoints" k = true) (hv : ∀ xs, v ≠ .array xs) (hn : v ≠ .null)
    (s : Series) (saved : Option Error) :
    failed (decodeFields s saved [(k, v)]) = true := by
  cases v <;> cases saved <;>
    simp_all [decodeFields, storeDataPoints, failed, saveError]

/-- A `target` member that is neither a string nor `null` fails. -/
theorem failed_member_target (k : String) (v : JSON)
    (hk : fieldMatches "target" k = true) (hv : ∀ t, v ≠ .string t) (hn : v ≠ .null)
    (s : Series) (saved : Option Error) :
    failed (decodeFields s saved [(k, v)]) = true := by
  have hk2 := not_datapoints_of_target k hk
  cases v <;> cases saved <;>
    simp_all [decodeFields, storeTarget, failed, saveError]

theorem seriesFails_object (pre post : List (String × JSON)) (kv : String × JSON)
    (h : ∀ s1 saved1, failed (decodeFields s1 saved1 [kv]) = true) :
    seriesFails (.object (pre ++ kv :: post)) = true := by
  simp only [seriesFails, decodeSeries]
  exact failed_decodeFields_member pre _ _ kv post h

theorem UnmarshalJSON_wellFormed (j : JSON) (dp : DataPoint) (h : WellFormedPoint j dp)
    (p : DataPoint) : DataPoint.UnmarshalJSON p j = (dp, none) := by
  cases h with
  | absent t ts ht =>
    simp [DataPoint.UnmarshalJSON, unmarshalTmp, unmarshalSlots, storeValue,
      storeTimestamp, ht]
  | present n f t ts hn ht =>
    simp [DataPoint.UnmarshalJSON, unmarshalTmp, unmarshalSlots, storeValue,
      storeTimestamp, ht, hn]

theorem decodeDataPoints_wellFormed (ps : List JSON) (dps : List DataPoint)
    (h : List.Forall₂ WellFormedPoint ps dps) :
    ∀ old, decodeDataPoints old ps = .ok dps := by
  induction h with
  | nil => intro old; rfl
  | cons hp _ ih =>
    intro old
    simp [decodeDataPoints, UnmarshalJSON_wellFormed _ _ hp, ih]

/-- Members whose keys select no field are skipped. -/
theorem decodeFields_skip (pre : List (String × JSON)) :
    ∀ (s : Series) (saved : Option Error) (rest : List (String × JSON)),
      (∀ kv ∈ pre, unknownKey kv.1 = true) →
      decodeFields s saved (pre ++ rest) = decodeFields s saved rest := by
  induction pre with
  | nil => intro s saved rest _; rfl
  | cons kv pre ih =>
    intro s saved rest h
    have hkv := h kv (List.mem_cons_self _ _)
    simp only [unknownKey, Bool.and_eq_true, Bool.not_eq_true'] at hkv
    simp only [List.cons_append]
    rw [decodeFields]
    simp only [hkv.1, hkv.2, Bool.false_eq_true, if_false]
    exact ih s saved rest (fun x hx => h x (List.mem_cons_of_mem _ hx))

theorem decodeFields_skip_all (pre : List (String × JSON)) (s : Series)
    (saved : Option Error) (h : ∀ kv ∈ pre, unknownKey kv.1 = true) :
    decodeFields s saved pre = .ok (s, saved) := by
  have h1 := decodeFields_skip pre s saved [] h
  rw [List.append_nil] at h1
  rw [h1]
  rfl

theorem decodeSeries_wellFormed (x : JSON) (s : Series) (h : WellFormedSeries x s)
    (saved : Option Error) : decodeSeries Series.zero saved x = .ok (s, saved) := by
  cases h with
  | datapointsFirst pre mid post kd kt ps dps target hpre hmid hpost hkd hkt h =>
    have hkt2 := not_datapoints_of_target kt hkt
    simp only [decodeSeries]
    rw [decodeFields_skip pre _ _ _ hpre, decodeFields]
    simp only [hkd, if_true, storeDataPoints, decodeDataPoints_wellFormed ps dps h]
    rw [decodeFields_skip mid _ _ _ hmid, decodeFields]
    simp only [hkt, hkt2, Bool.false_eq_true, if_true, if_false, storeTarget]
    rw [decodeFields_skip_all post _ _ hpost]
  | targetFirst pre mid post kd kt ps dps target hpre hmid hpost hkd hkt h =>
    have hkt2 := not_datapoints_of_target kt hkt
    simp only [decodeSeries]
    rw [decodeFields_skip pre _ _ _ hpre, decodeFields]
    simp only [hkt, hkt2, Bool.false_eq_true, if_true, if_false, storeTarget]
    rw [decodeFields_skip mid _ _ _ hmid, decodeFields]
    simp only [hkd, if_true, storeDataPoints, decodeDataPoints_wellFormed ps dps h]
    rw [decodeFields_skip_all post _ _ hpost]

theorem decodeSeriesList_wellFormed (xs : List JSON) (ss : List Series)
    (h : List.Forall₂ WellFormedSeries xs ss) :
    ∀ saved, decodeSeriesList saved xs = .ok (ss, saved) := by
  induction h with
  | nil => intro saved; rfl
  | cons hx _ ih =>
    intro saved
    simp [decodeSeriesList, decodeSeries_wellFormed _ _ hx, ih]

/-! ## The timestamp position -/

/-- C2, as amended: for every two-element array whose second element is a
string, a boolean, an array, an object or a number that is not an `int64`
integer literal, `UnmarshalJSON` fails, and so does the decode of every
response that holds such a pair in the `datapoints` of one of its series.  A
`null` in the timestamp position is accepted: whatever the receiver held,
`Timestamp` keeps its value, and the decode succeeds when the first element is
`null` or a number of magnitude below `2^1024 - 2^970`. -/
theorem C2_bad_timestamp :
    (∀ (p : DataPoint) (v t : JSON), badTimestamp t = true →
      (∃ e, (DataPoint.UnmarshalJSON p (.array [v, t])).2 = some e) ∧
      ∀ (before after : List JSON) (members rest : List (String × JSON)) (k : String)
        (a b : List JSON), fieldMatches "datapoints" k = true →
        ∃ e, unmarshalSeries (.array (before ++
            .object (members ++ (k, .array (a ++ .array [v, t] :: b)) :: rest) :: after))
          = .error e) ∧
    (∀ (p : DataPoint) (v : JSON),
      (DataPoint.UnmarshalJSON p (.array [v, .null])).1.Timestamp = p.Timestamp ∧
      ((v = .null ∨ ∃ n : JNumber, v = .number n ∧ |n.toRat| < float64Limit) →
        (DataPoint.UnmarshalJSON p (.array [v, .null])).2 = none)) := by
  constructor
  · intro p v t ht
    have hfail : ∀ q, ∃ e, (DataPoint.UnmarshalJSON q (.array [v, t])).2 = some e := by
      intro q
      have h1 : ∀ q1 saved, ∃ e, (storeTimestamp q1 saved t).2 = some e := by
        intro q1 saved
        cases t <;> cases saved <;> simp_all [storeTimestamp, saveError, badTimestamp]
      obtain ⟨e, he⟩ := h1 (storeValue q none v).1 (storeValue q none v).2
      refine ⟨e, ?_⟩
      simp [DataPoint.UnmarshalJSON, unmarshalTmp, unmarshalSlots, he]
    refine ⟨hfail p, ?_⟩
    intro before after members rest k a b hk
    apply unmarshalSeries_fails
    refine ⟨_, List.mem_append_right _ (List.mem_cons_self _ _), ?_⟩
    apply seriesFails_object
    intro s1 saved1
    apply failed_member_point k a b _ hk
    obtain ⟨e, he⟩ := hfail DataPoint.zero
    simp [pointFails, he]
  · intro p v
    have hts : (storeValue p none v).1.Timestamp = p.Timestamp := by
      cases v <;> simp [storeValue]
      case number n => cases strconv.ParseFloat n <;> rfl
    constructor
    · simp only [DataPoint.UnmarshalJSON, unmarshalTmp, unmarshalSlots, storeTimestamp,
        if_true, one_ne_zero, if_false, zero_add, List.length_cons, List.length_nil]
      cases (storeValue p none v).2 <;> simpa using hts
    · intro hv
      have hv2 : slotAccepts 0 v = true := by
        rcases hv with rfl | ⟨n, rfl, hn⟩
        · rfl
        · exact (slotAccepts_value_iff n).mpr hn
      have h := unmarshalSlots_accept [v, .null] p
        (by simpa [slotsAccept, slotAccepts] using hv2)
      simp [DataPoint.UnmarshalJSON, unmarshalTmp, h]

/-- C2, witness: the pair `[null,"1566577080"]`, whose timestamp is a string,
is refused, alone and as the only datapoint of the only series of a response;
the pair `[null,null]` is accepted by a `DataPoint` that holds the timestamp 7,
which keeps it. -/
theorem C2_bad_timestamp_witness :
    (∃ e, (DataPoint.UnmarshalJSON DataPoint.zero
        (.array [.null, .string "1566577080"])).2 = some e) ∧
    (∃ e, unmarshalSeries (.array [.object
        [("datapoints", .array [.array [.null, .string "1566577080"]]),
         ("target", .string "a")]]) = .error e) ∧
    (DataPoint.UnmarshalJSON ⟨7, none⟩ (.array [.null, .null])).1.Timestamp = 7 ∧
    (DataPoint.UnmarshalJSON ⟨7, none⟩ (.array [.null, .null])).2 = none :=
  ⟨(C2_bad_timestamp.1 DataPoint.zero .null (.string "1566577080") (by decide)).1,
   (C2_bad_timestamp.1 DataPoint.zero .null (.string "1566577080") (by decide)).2
      [] [] [] [("target", .string "a")] "datapoints" [] [] (by decide),
   (C2_bad_timestamp.2 ⟨7, none⟩ .null).1,
   (C2_bad_timestamp.2 ⟨7, none⟩ .null).2 (Or.inl rfl)⟩

/-! ## The request -/

/-- C4, the code at the base URL `https://www.example.com:9090/foo`: `NewClient`
appends `render` to the path and `Render` appends it again, so the request is
issued at `/foo/render/render`, not at `/foo/render`. -/
theorem C4_render_appended_twice (doer : Doer) (r : RenderRequest) :
    ((NewClient doer ⟨"https", "www.example.com:9090", "/foo", ""⟩).Render
        (fun _ => none) r).trace.head?
      = some (.doRequest ⟨"GET",
          ⟨"https", "www.example.com:9090", "/foo/render/render", r.Values.Encode⟩,
          none⟩) := by
  have hp : path.Join [path.Join ["/foo", "render"], "render"] = "/foo/render/render" := by
    decide
  simp only [Client.Render, http.NewRequest, Client.requestURL, NewClient, hp]
  split
  · rfl
  · split
    · rfl
    · split <;> rfl

/-- C6: `Values` maps `format` to the single value `json` and `target` to the
targets of the request, in their order and unchanged; with no targets the
list of `target` values is empty. -/
theorem C6_values_format_target (r : RenderRequest) :
    r.Values.lookup "format" = some ["json"] ∧
    r.Values.lookup "target" = some r.Targets ∧
    (r.Values.lookup "target").map List.length = some r.Targets.length := by
  obtain ⟨fr, un, targets⟩ := r
  cases fr <;> cases un <;>
    simp [RenderRequest.Values, url.Values.Set, url.Values.lookup, List.find?, List.filter]

/-- C7: `Values` has the key `from` exactly when a from-bound was supplied,
with its `String()` as the single value, and the key `until` exactly when an
until-bound was supplied, likewise; neither bound touches the other key. -/
theorem C7_values_from_until (r : RenderRequest) :
    r.Values.lookup "from" = r.From.map (fun t => [t.String]) ∧
    r.Values.lookup "until" = r.Until.map (fun t => [t.String]) := by
  obtain ⟨fr, un, targets⟩ := r
  cases fr <;> cases un <;>
    simp [RenderRequest.Values, url.Values.Set, url.Values.lookup, List.find?, List.filter]

/-! ## The response -/

/-- C5: a JSON array of well-formed series objects decodes, and the result is
exactly the series the objects stand for: as many as there are objects, in the
order of the input, each with its target string and with its datapoints in the
order of the input.  A series object may name its two members in either order
and in any letter case, and may hold further members, which are skipped. -/
theorem C5_decode_series (xs : List JSON) (ss : List Series)
    (h : List.Forall₂ WellFormedSeries xs ss) :
    unmarshalSeries (.array xs) = .ok ss ∧ ss.length = xs.length := by
  refine ⟨?_, h.length_eq.symm⟩
  simp only [unmarshalSeries, decodeSeriesList_wellFormed xs ss h none]

/-- C5, witness: the payload of `TestResponseUnmarshall`, three series with
the one datapoint `[null,1566577080]` each, the second one written here with
a `tags` member between `Target` and `DATAPOINTS`. -/
theorem C5_decode_series_witness :
    unmarshalSeries (.array [
      .object [("datapoints", .array [.array [.null, .number ⟨false, 1566577080, [], none⟩]]),
        ("target", .string "fpi.probes.000.000.001.C")],
      .object [("Target", .string "fpi.probes.000.000.002.C"),
        ("tags", .object [("name", .string "fpi")]),
        ("DATAPOINTS", .array [.array [.null, .number ⟨false, 1566577080, [], none⟩]])],
      .object [("datapoints", .array [.array [.null, .number ⟨false, 1566577080, [], none⟩]]),
        ("target", .string "fpi.probes.000.000.003.C")]])
      = .ok [⟨[⟨1566577080, none⟩], "fpi.probes.000.000.001.C"⟩,
          ⟨[⟨1566577080, none⟩], "fpi.probes.000.000.002.C"⟩,
          ⟨[⟨1566577080, none⟩], "fpi.probes.000.000.003.C"⟩] :=
  (C5_decode_series _ _
    (.cons (.datapointsFirst [] [] [] "datapoints" "target" _ _ _
        (by simp) (by simp) (by simp) (by decide) (by decide)
        (.cons (.absent _ _ (by decide)) .nil))
      (.cons (.targetFirst [] [("tags", .object [("name", .string "fpi")])] []
          "DATAPOINTS" "Target" _ _ _
          (by simp) (by intro kv hkv; simp at hkv; subst hkv; decide) (by simp)
          (by decide) (by decide)
          (.cons (.absent _ _ (by decide)) .nil))
        (.cons (.datapointsFirst [] [] [] "datapoints" "target" _ _ _
            (by simp) (by simp) (by simp) (by decide) (by decide)
            (.cons (.absent _ _ (by decide)) .nil))
          .nil)))).1

/-- C8: when the doer returns a response whose status code is not 200,
`Render` returns the error `unexpected status code <code>` and an empty
`RenderResponse`, whatever the body is, and the body is not decoded; when the
status code is 200, the body is decoded and decides the result. -/
theorem C8_status_code (urlError : URL → Option Error) (c : Client) (r : RenderRequest)
    (resp : Response)
    (hurl : urlError (c.requestURL r) = none)
    (hdo : c.client.Do ⟨"GET", c.requestURL r, none⟩ = .ok resp) :
    (resp.StatusCode ≠ 200 →
      c.Render urlError r
        = ⟨⟨[]⟩, some (.errorf ("unexpected status code " ++ toString resp.StatusCode)),
            [.doRequest ⟨"GET", c.requestURL r, none⟩, .closeBody]⟩ ∧
      ((c.Render urlError r).err.map Error.message
        = some ("unexpected status code " ++ toString resp.StatusCode)) ∧
      Event.decodeBody ∉ (c.Render urlError r).trace) ∧
    (resp.StatusCode = 200 →
      Event.decodeBody ∈ (c.Render urlError r).trace ∧
      ((c.Render urlError r).resp, (c.Render urlError r).err)
        = match resp.Body.Decode with
          | .ok data => (⟨data⟩, none)
          | .error e => (⟨[]⟩, some (.wrap "decoding response" e))) := by
  constructor
  · intro hs
    have h : c.Render urlError r
        = ⟨⟨[]⟩, some (.errorf ("unexpected status code " ++ toString resp.StatusCode)),
            [.doRequest ⟨"GET", c.requestURL r, none⟩, .closeBody]⟩ := by
      simp [Client.Render, http.NewRequest, hurl, hdo, hs]
    rw [h]
    simp [Error.message]
  · intro hs
    cases hb : resp.Body.Decode <;>
      simp [Client.Render, http.NewRequest, hurl, hdo, hs, hb]

/-- C8, witness: status 500 with a body that would decode gives
`unexpected status code 500`, no series, and a trace without a decode. -/
theorem C8_status_code_witness :
    (NewClient (constDoer ⟨500, .value (.array [])⟩) ⟨"https", "example.com", "", ""⟩).Render
        (fun _ => none) ⟨none, none, ["a"]⟩
      = ⟨⟨[]⟩, some (.errorf "unexpected status code 500"),
          [.doRequest ⟨"GET", ⟨"https", "example.com", "render/render",
            "format=json&target=a"⟩, none⟩, .closeBody]⟩ :=
  ((C8_status_code (fun _ => none)
      (NewClient (constDoer ⟨500, .value (.array [])⟩) ⟨"https", "example.com", "", ""⟩)
      ⟨none, none, ["a"]⟩ ⟨500, .value (.array [])⟩ rfl rfl).1 (by decide)).1

/-- C9, counterexample: a body that is `null` decodes, to no series, and so
does an array whose element has `null` for `target` and for `datapoints`. -/
theorem C9_counterexample :
    unmarshalSeries .null = .ok [] ∧
    unmarshalSeries (.array [.object [("target", .null), ("datapoints", .null)]])
      = .ok [⟨[], ""⟩] :=
  ⟨rfl, rfl⟩

/-- C9, as amended: a body whose top-level value is an object, a string, a
number or a boolean does not decode, and neither does an array with an element
whose `target` is neither a string nor `null` or whose `datapoints` is neither
an array nor `null`. -/
theorem C9_shape_errors :
    (∀ j : JSON, (∀ xs, j ≠ .array xs) → j ≠ .null →
      unmarshalSeries j = .error (.unmarshalType j.kind "[]graphite.Series")) ∧
    (∀ (before after : List JSON) (members rest : List (String × JSON)) (k : String)
      (v : JSON),
      (fieldMatches "target" k = true ∧ (∀ t, v ≠ .string t) ∧ v ≠ .null) ∨
      (fieldMatches "datapoints" k = true ∧ (∀ xs, v ≠ .array xs) ∧ v ≠ .null) →
      ∃ e, unmarshalSeries
        (.array (before ++ .object (members ++ (k, v) :: rest) :: after)) = .error e) := by
  constructor
  · intro j ha hn
    cases j <;> simp_all [unmarshalSeries]
  · intro before after members rest k v h
    apply unmarshalSeries_fails
    refine ⟨_, List.mem_append_right _ (List.mem_cons_self _ _), ?_⟩
    apply seriesFails_object
    intro s1 saved1
    rcases h with ⟨hk, hv, hn⟩ | ⟨hk, hv, hn⟩
    · exact failed_member_target k v hk hv hn s1 saved1
    · exact failed_member_datapoints k v hk hv hn s1 saved1

/-- C9, witness: the body `{}` is refused as an object, and the array
`[{"target":5,"datapoints":[]}]` is refused for its `target`. -/
theorem C9_shape_errors_witness :
    unmarshalSeries (.object []) = .error (.unmarshalType "object" "[]graphite.Series") ∧
    ∃ e, unmarshalSeries (.array [.object
        [("target", .number ⟨false, 5, [], none⟩), ("datapoints", .array [])]])
      = .error e :=
  ⟨C9_shape_errors.1 (.object []) (by simp) (by simp),
   C9_shape_errors.2 [] [] [] [("datapoints", .array [])] "target"
      (.number ⟨false, 5, [], none⟩) (Or.inl ⟨by decide, by simp, by simp⟩)⟩

/-- C10: decoding is all-or-nothing.  When the response has status 200 and its
body is an array with a malformed element, or with an element that holds a
malformed datapoint, at any position, `Render` returns an error wrapped as
`decoding response` and a `RenderResponse` without series. -/
theorem C10_all_or_nothing (urlError : URL → Option Error) (c : Client)
    (r : RenderRequest) (resp : Response) (xs : List JSON)
    (hurl : urlError (c.requestURL r) = none)
    (hdo : c.client.Do ⟨"GET", c.requestURL r, none⟩ = .ok resp)
    (hstatus : resp.StatusCode = 200)
    (hbody : resp.Body = .value (.array xs))
    (hbad : ∃ x ∈ xs, seriesFails x = true ∨
      ∃ (members rest : List (String × JSON)) (k : String) (a b : List JSON) (d : JSON),
        x = .object (members ++ (k, .array (a ++ d :: b)) :: rest) ∧
        fieldMatches "datapoints" k = true ∧ pointFails d = true) :
    ∃ e, c.Render urlError r
      = ⟨⟨[]⟩, some (.wrap "decoding response" e),
          [.doRequest ⟨"GET", c.requestURL r, none⟩, .decodeBody, .closeBody]⟩ := by
  have hx : ∃ x ∈ xs, seriesFails x = true := by
    obtain ⟨x, hmem, h⟩ := hbad
    refine ⟨x, hmem, ?_⟩
    rcases h with h | ⟨members, rest, k, a, b, d, rfl, hk, hd⟩
    · exact h
    · apply seriesFails_object
      intro s1 saved1
      exact failed_member_point k a b d hk hd s1 saved1
  obtain ⟨e, he⟩ := unmarshalSeries_fails xs hx
  refine ⟨e, ?_⟩
  simp [Client.Render, http.NewRequest, hurl, hdo, hstatus, hbody, Body.Decode, he]

/-- C10, witness: two well-formed series followed by a series whose last
datapoint is `[null]`; nothing of the first two series is returned. -/
theorem C10_all_or_nothing_witness :
    ∃ e, (NewClient (constDoer ⟨200, .value (.array [
        .object [("datapoints", .array [.array [.null, .number ⟨false, 1566577080, [], none⟩]]),
          ("target", .string "fpi.probes.000.000.001.C")],
        .object [("datapoints", .array [.array [.null, .number ⟨false, 1566577080, [], none⟩]]),
          ("target", .string "fpi.probes.000.000.002.C")],
        .object [("datapoints", .array [.array [.null, .number ⟨false, 1566577080, [], none⟩],
            .array [.null]]),
          ("target", .string "fpi.probes.000.000.003.C")]])⟩)
        ⟨"https", "example.com", "", ""⟩).Render (fun _ => none) ⟨none, none, ["a"]⟩
      = ⟨⟨[]⟩, some (.wrap "decoding response" e),
          [.doRequest ⟨"GET", ⟨"https", "example.com", "render/render",
            "format=json&target=a"⟩, none⟩, .decodeBody, .closeBody]⟩ :=
  C10_all_or_nothing (fun _ => none) _ ⟨none, none, ["a"]⟩ _ _ rfl rfl rfl rfl
    ⟨_, List.mem_cons_of_mem _ (List.mem_cons_of_mem _ (List.mem_cons_self _ _)),
      Or.inr ⟨[], [("target", .string "fpi.probes.000.000.003.C")], "datapoints",
        [.array [.null, .number ⟨false, 1566577080, [], none⟩]], [], .array [.null],
        rfl, by decide, by decide⟩⟩

/-! ## Time bounds -/

theorem readDigits_digitChar (acc m : Nat) (cs : List Char) (hm : m < 10) :
    readDigits acc (Nat.digitChar m :: cs) = readDigits (10 * acc + m) cs := by
  interval_cases m <;> rfl

/-- The digits that `Nat.toDigitsCore` puts in front of `ds` read back as the
number they were made from. -/
theorem readDigits_toDigitsCore (fuel : Nat) :
    ∀ (n : Nat) (ds : List Char), n < fuel →
      readDigits 0 (Nat.toDigitsCore 10 fuel n ds) = readDigits n ds := by
  induction fuel with
  | zero => intro n ds h; omega
  | succ fuel ih =>
    intro n ds hn
    unfold Nat.toDigitsCore
    by_cases h0 : n / 10 = 0
    · simp only [h0, if_true]
      rw [readDigits_digitChar 0 (n % 10) ds (Nat.mod_lt _ (by omega))]
      have : 10 * 0 + n % 10 = n := by omega
      rw [this]
    · simp only [h0, if_false]
      rw [ih (n / 10) _ (by omega),
        readDigits_digitChar (n / 10) (n % 10) ds (Nat.mod_lt _ (by omega))]
      have : 10 * (n / 10) + n % 10 = n := by omega
      rw [this]

theorem toDigitsCore_ne_nil (fuel : Nat) :
    ∀ (n : Nat) (ds : List Char), (0 < fuel ∨ ds ≠ []) →
      Nat.toDigitsCore 10 fuel n ds ≠ [] := by
  induction fuel with
  | zero =>
    intro n ds h
    rcases h with h | h
    · omega
    · simpa [Nat.toDigitsCore] using h
  | succ fuel ih =>
    intro n ds _
    unfold Nat.toDigitsCore
    by_cases h0 : n / 10 = 0
    · simp [h0]
    · simp only [h0, if_false]
      exact ih _ _ (Or.inr (by simp))

theorem readNat_repr (n : Nat) : readNat (Nat.repr n).data = some n := by
  have h1 := readDigits_toDigitsCore (n + 1) n [] (by omega)
  have h2 := toDigitsCore_ne_nil (n + 1) n [] (Or.inl (by omega))
  simp only [Nat.repr, Nat.toDigits, List.asString]
  cases hd : Nat.toDigitsCore 10 (n + 1) n [] with
  | nil => exact absurd hd h2
  | cons c cs =>
    rw [hd] at h1
    simpa [readNat, readDigits] using h1

theorem readDecimal_FormatInt (i : Int) : readDecimal (strconv.FormatInt i) = some i := by
  unfold strconv.FormatInt
  by_cases hneg : i < 0
  · simp only [hneg, if_true, readDecimal, String.data_append]
    simp only [List.singleton_append, List.cons_append, List.nil_append, readNat_repr,
      Option.map_some']
    congr 1
    omega
  · simp only [hneg, if_false, readDecimal]
    have h := readNat_repr i.toNat
    cases hd : (Nat.repr i.toNat).data with
    | nil => rw [hd] at h; simp [readNat] at h
    | cons c cs =>
      rw [hd] at h
      by_cases hc : c = '-'
      · subst hc
        simp [readNat, readDigits] at h
      · have : (match c :: cs with
            | '-' :: cs => Option.map (fun (n : Nat) => -(n : Int)) (readNat cs)
            | cs => Option.map (fun (n : Nat) => (n : Int)) (readNat cs))
            = Option.map (fun (n : Nat) => (n : Int)) (readNat (c :: cs)) := by
          split
          · rename_i heq
            simp only [List.cons.injEq] at heq
            exact absurd heq.1 hc
          · rfl
        rw [this, h]
        simp only [Option.map_some']
        congr 1
        omega

/-- C12: for every instant, `AbsoluteTime.String` is the base-10 string of its
Unix time in whole seconds, negative or not and whatever the nanoseconds are:
read back as a decimal integer (sign and digits only) it gives that number.
The time 1566577080 gives "1566577080". -/
theorem C12_absolute_time_string :
    (∀ t : AbsoluteTime, readDecimal t.String = some t.Time.Unix) ∧
    (∀ s : Int, ∀ ns : Nat, (AbsoluteTime.mk ⟨s, ns⟩).String = strconv.FormatInt s) ∧
    (AbsoluteTime.mk ⟨1566577080, 0⟩).String = "1566577080" ∧
    (AbsoluteTime.mk ⟨-5, 999999999⟩).String = "-5" := by
  refine ⟨fun t => readDecimal_FormatInt _, fun s ns => rfl, by decide, by decide⟩

/-- C13: `RelativeTime.String` returns the string it holds, whatever string
that is, and `Values` passes it on as the value of `from` or of `until`. -/
theorem C13_relative_time_verbatim (s : String) :
    (RelativeTime.mk s).String = s ∧
    (∀ (u : Option Time) (targets : List String),
      (RenderRequest.mk (some (.relative ⟨s⟩)) u targets).Values.lookup "from" = some [s]) ∧
    (∀ (f : Option Time) (targets : List String),
      (RenderRequest.mk f (some (.relative ⟨s⟩)) targets).Values.lookup "until"
        = some [s]) := by
  refine ⟨rfl, ?_, ?_⟩
  · intro u targets
    cases u <;>
      simp [RenderRequest.Values, url.Values.Set, url.Values.lookup, List.find?,
        List.filter, Time.String, RelativeTime.String]
  · intro f targets
    cases f <;>
      simp [RenderRequest.Values, url.Values.Set, url.Values.lookup, List.find?,
        List.filter, Time.String, RelativeTime.String]

/-! ## The order of the pair and inputs that are not pairs -/

/-- C14, the code at `[1,2]`: the first element becomes the value and the
second the timestamp, so the result has `Timestamp` 2 and `Value` 1, where the
doc comment of `UnmarshalJSON`, `[<timestamp>,<value>]`, asks for `Timestamp` 1
and `Value` 2. -/
theorem C14_first_element_is_value :
    DataPoint.UnmarshalJSON DataPoint.zero
        (.array [.number ⟨false, 1, [], none⟩, .number ⟨false, 2, [], none⟩])
      = (⟨2, some ⟨false, 1023, 0⟩⟩, none) ∧
    strconv.ParseFloat ⟨false, 1, [], none⟩ = some ⟨false, 1023, 0⟩ ∧
    (DataPoint.UnmarshalJSON DataPoint.zero
        (.array [.number ⟨false, 1, [], none⟩, .number ⟨false, 2, [], none⟩])).1.Timestamp
      ≠ 1 ∧
    (DataPoint.UnmarshalJSON DataPoint.zero
        (.array [.number ⟨false, 1, [], none⟩, .number ⟨false, 2, [], none⟩])).1.Value
      ≠ strconv.ParseFloat ⟨false, 2, [], none⟩ := by
  decide

/-- The order in which the code binds every well-formed pair: the first element
alone decides `Value` and the second element is the number stored in
`Timestamp`. -/
theorem UnmarshalJSON_value_then_timestamp (p : DataPoint) (a b : JSON) (dp : DataPoint)
    (h : WellFormedPoint (.array [a, b]) dp) :
    DataPoint.UnmarshalJSON p (.array [a, b]) = (dp, none) ∧
    dp.Value = (match a with
      | .number n => strconv.ParseFloat n
      | _ => none) ∧
    ∃ t, b = .number t ∧ strconv.ParseInt t = some dp.Timestamp := by
  cases h with
  | absent t ts ht =>
    refine ⟨?_, rfl, t, rfl, ht⟩
    simp [DataPoint.UnmarshalJSON, unmarshalTmp, unmarshalSlots, storeValue,
      storeTimestamp, ht]
  | present n f t ts hn ht =>
    refine ⟨?_, hn.symm, t, rfl, ht⟩
    simp [DataPoint.UnmarshalJSON, unmarshalTmp, unmarshalSlots, storeValue,
      storeTimestamp, ht, hn]

/-- C17: `UnmarshalJSON` never succeeds on a value that is not an array of
exactly two elements: it returns a type error of the decoder or the
wrong-number-of-fields error. -/
theorem C17_only_pairs_decode (p : DataPoint) (j : JSON)
    (h : ∀ a b, j ≠ .array [a, b]) :
    ∃ e, (DataPoint.UnmarshalJSON p j).2 = some e ∧
      ((∃ v t, e = .unmarshalType v t) ∨
       ∃ n : Nat, n ≠ 2 ∧ e = .errorf ("wrong number of fields in datapoint: "
          ++ toString n ++ " != " ++ toString 2)) := by
  cases j with
  | null =>
    exact ⟨_, by simp [DataPoint.UnmarshalJSON, unmarshalTmp], Or.inr ⟨0, by decide, rfl⟩⟩
  | bool b => exact ⟨_, rfl, Or.inl ⟨_, _, rfl⟩⟩
  | number n => exact ⟨_, rfl, Or.inl ⟨_, _, rfl⟩⟩
  | string s => exact ⟨_, rfl, Or.inl ⟨_, _, rfl⟩⟩
  | object kvs => exact ⟨_, rfl, Or.inl ⟨_, _, rfl⟩⟩
  | array xs =>
    have hlen : xs.length ≠ 2 := by
      intro hl
      match xs, hl with
      | [a, b], _ => exact h a b rfl
    rcases unmarshalSlots_typeError xs p 0 with hs | ⟨v, t, hs⟩
    · exact ⟨_, by simp [DataPoint.UnmarshalJSON, unmarshalTmp, hs, hlen],
        Or.inr ⟨xs.length, hlen, rfl⟩⟩
    · exact ⟨_, by simp [DataPoint.UnmarshalJSON, unmarshalTmp, hs], Or.inl ⟨v, t, rfl⟩⟩

/-- C17, witness: `null` is refused with the count 0, and the object `{}` with a
type error. -/
theorem C17_only_pairs_decode_witness :
    (∃ e, (DataPoint.UnmarshalJSON DataPoint.zero .null).2 = some e ∧
      ((∃ v t, e = .unmarshalType v t) ∨
       ∃ n : Nat, n ≠ 2 ∧ e = .errorf ("wrong number of fields in datapoint: "
          ++ toString n ++ " != " ++ toString 2))) ∧
    (DataPoint.UnmarshalJSON DataPoint.zero .null).2
      = some (.errorf "wrong number of fields in datapoint: 0 != 2") ∧
    (DataPoint.UnmarshalJSON DataPoint.zero (.object [])).2
      = some (.unmarshalType "object" "[]interface {}") :=
  ⟨C17_only_pairs_decode DataPoint.zero .null (by simp), by decide, by decide⟩

/-! ## The call of the doer -/

theorem Error.Is_self (e : Error) : e.Is e = true := by
  cases e <;> simp [Error.Is]

/-- C11: when the doer returns the error `e`, `Render` returns `e` wrapped as
`executing request`, so that `e` is reached by unwrapping, together with an
empty `RenderResponse`; nothing is decoded and no body is closed. -/
theorem C11_transport_error (urlError : URL → Option Error) (c : Client)
    (r : RenderRequest) (e : Error)
    (hurl : urlError (c.requestURL r) = none)
    (hdo : c.client.Do ⟨"GET", c.requestURL r, none⟩ = .error e) :
    c.Render urlError r
      = ⟨⟨[]⟩, some (.wrap "executing request" e),
          [.doRequest ⟨"GET", c.requestURL r, none⟩]⟩ ∧
    (Error.wrap "executing request" e).Is e = true ∧
    (Error.wrap "executing request" e).message = "executing request: " ++ e.message ∧
    Event.decodeBody ∉ (c.Render urlError r).trace := by
  have h : c.Render urlError r
      = ⟨⟨[]⟩, some (.wrap "executing request" e),
          [.doRequest ⟨"GET", c.requestURL r, none⟩]⟩ := by
    simp [Client.Render, http.NewRequest, hurl, hdo]
  refine ⟨h, ?_, ?_, ?_⟩
  · simp [Error.Is, Error.Is_self]
  · simp [Error.message, String.append_assoc]
  · rw [h]; simp

/-- C11, witness: a doer that fails with `context canceled`. -/
theorem C11_transport_error_witness :
    (NewClient (failingDoer (.foreign "context canceled"))
        ⟨"https", "example.com", "", ""⟩).Render (fun _ => none) ⟨none, none, ["a"]⟩
      = ⟨⟨[]⟩, some (.wrap "executing request" (.foreign "context canceled")),
          [.doRequest ⟨"GET", ⟨"https", "example.com", "render/render",
            "format=json&target=a"⟩, none⟩]⟩ :=
  (C11_transport_error (fun _ => none)
    (NewClient (failingDoer (.foreign "context canceled")) ⟨"https", "example.com", "", ""⟩)
    ⟨none, none, ["a"]⟩ (.foreign "context canceled") rfl rfl).1

/-- C15: whenever the doer returns a response, the last thing `Render` does is
to close the body of that response, and it closes it once, whatever the status
and whatever the decoding gives. -/
theorem C15_body_closed (urlError : URL → Option Error) (c : Client)
    (r : RenderRequest) (resp : Response)
    (hurl : urlError (c.requestURL r) = none)
    (hdo : c.client.Do ⟨"GET", c.requestURL r, none⟩ = .ok resp) :
    ∃ before, (c.Render urlError r).trace = before ++ [.closeBody] ∧
      Event.closeBody ∉ before := by
  by_cases hs : resp.StatusCode = 200
  · cases hb : resp.Body.Decode with
    | error e =>
      exact ⟨[.doRequest ⟨"GET", c.requestURL r, none⟩, .decodeBody],
        by simp [Client.Render, http.NewRequest, hurl, hdo, hs, hb], by simp⟩
    | ok data =>
      exact ⟨[.doRequest ⟨"GET", c.requestURL r, none⟩, .decodeBody],
        by simp [Client.Render, http.NewRequest, hurl, hdo, hs, hb], by simp⟩
  · exact ⟨[.doRequest ⟨"GET", c.requestURL r, none⟩],
      by simp [Client.Render, http.NewRequest, hurl, hdo, hs], by simp⟩

/-- C15, witness: the three exit paths, status 500, status 200 with a body that
does not decode, and status 200 with the body `[]`. -/
theorem C15_body_closed_witness :
    (∃ before, ((NewClient (constDoer ⟨500, .value (.array [])⟩)
        ⟨"https", "example.com", "", ""⟩).Render (fun _ => none) ⟨none, none, []⟩).trace
        = before ++ [.closeBody] ∧ Event.closeBody ∉ before) ∧
    (∃ before, ((NewClient (constDoer ⟨200, .bad (.foreign "unexpected EOF")⟩)
        ⟨"https", "example.com", "", ""⟩).Render (fun _ => none) ⟨none, none, []⟩).trace
        = before ++ [.closeBody] ∧ Event.closeBody ∉ before) ∧
    (∃ before, ((NewClient (constDoer ⟨200, .value (.array [])⟩)
        ⟨"https", "example.com", "", ""⟩).Render (fun _ => none) ⟨none, none, []⟩).trace
        = before ++ [.closeBody] ∧ Event.closeBody ∉ before) :=
  ⟨C15_body_closed (fun _ => none) _ _ ⟨500, .value (.array [])⟩ rfl rfl,
   C15_body_closed (fun _ => none) _ _ ⟨200, .bad (.foreign "unexpected EOF")⟩ rfl rfl,
   C15_body_closed (fun _ => none) _ _ ⟨200, .value (.array [])⟩ rfl rfl⟩

/-- C16: when the request can be constructed, `Render` calls the doer once, as
the first thing it does and never again, with a `GET` request that has no body
and whose raw query is the encoding of `r.Values()`. -/
theorem C16_one_get_request (urlError : URL → Option Error) (c : Client)
    (r : RenderRequest) (hurl : urlError (c.requestURL r) = none) :
    ∃ req rest, (c.Render urlError r).trace = .doRequest req :: rest ∧
      (∀ q, Event.doRequest q ∉ rest) ∧
      req.Method = "GET" ∧ req.Body = none ∧
      req.URL.RawQuery = r.Values.Encode := by
  refine ⟨⟨"GET", c.requestURL r, none⟩, ?_⟩
  cases hdo : c.client.Do ⟨"GET", c.requestURL r, none⟩ with
  | error e =>
    exact ⟨[], by simp [Client.Render, http.NewRequest, hurl, hdo], by simp, rfl, rfl, rfl⟩
  | ok resp =>
    by_cases hs : resp.StatusCode = 200
    · cases hb : resp.Body.Decode with
      | error e =>
        exact ⟨[.decodeBody, .closeBody],
          by simp [Client.Render, http.NewRequest, hurl, hdo, hs, hb], by simp,
          rfl, rfl, rfl⟩
      | ok data =>
        exact ⟨[.decodeBody, .closeBody],
          by simp [Client.Render, http.NewRequest, hurl, hdo, hs, hb], by simp,
          rfl, rfl, rfl⟩
    · exact ⟨[.closeBody],
        by simp [Client.Render, http.NewRequest, hurl, hdo, hs], by simp, rfl, rfl, rfl⟩

/-- C16, witness: one target, a doer that answers 200 with the body `[]`. -/
theorem C16_one_get_request_witness :
    ∃ req rest, ((NewClient (constDoer ⟨200, .value (.array [])⟩)
        ⟨"https", "example.com", "", ""⟩).Render (fun _ => none) ⟨none, none, ["a"]⟩).trace
        = .doRequest req :: rest ∧
      (∀ q, Event.doRequest q ∉ rest) ∧
      req.Method = "GET" ∧ req.Body = none ∧
      req.URL.RawQuery = (RenderRequest.mk none none ["a"]).Values.Encode :=
  C16_one_get_request (fun _ => none)
    (NewClient (constDoer ⟨200, .value (.array [])⟩) ⟨"https", "example.com", "", ""⟩)
    ⟨none, none, ["a"]⟩ rfl

/-! ## The query string -/

/-- C18: the query string of a request lists the parameters in ascending key
order, `format`, then `from` when supplied, then every `target` in the order
of the request, then `until` when supplied, each value escaped and the pairs
joined by `&`; so `from` stands before the targets, unlike
`format, target, from, until`. -/
theorem C18_query_order (r : RenderRequest) :
    r.Values.Encode
      = String.intercalate "&"
          (["format=json"]
            ++ (match r.From with
                | some t => ["from=" ++ url.QueryEscape t.String]
                | none => [])
            ++ r.Targets.map (fun t => "target=" ++ url.QueryEscape t)
            ++ (match r.Until with
                | some t => ["until=" ++ url.QueryEscape t.String]
                | none => [])) ∧
    (RenderRequest.mk (some (.relative ⟨"-4h"⟩)) (some (.absolute ⟨⟨1566577080, 0⟩⟩))
        ["a.b", "sum(x, y)"]).Values.Encode
      = "format=json&from=-4h&target=a.b&target=sum%28x%2C+y%29&until=1566577080" := by
  have e1 : url.QueryEscape "format" ++ "=" ++ url.QueryEscape "json" = "format=json" := by
    decide
  have e2 : url.QueryEscape "from" = "from" := by decide
  have e3 : url.QueryEscape "target" = "target" := by decide
  have e4 : url.QueryEscape "until" = "until" := by decide
  have a2 : ∀ x : String, "from" ++ "=" ++ x = "from=" ++ x := by
    intro x; rw [String.append_assoc]; rfl
  have a3 : ∀ x : String, "target" ++ "=" ++ x = "target=" ++ x := by
    intro x; rw [String.append_assoc]; rfl
  have a4 : ∀ x : String, "until" ++ "=" ++ x = "until=" ++ x := by
    intro x; rw [String.append_assoc]; rfl
  have l1 : stringLess "format".data "target".data = true := by decide
  have l2 : stringLess "target".data "format".data = false := by decide
  have l3 : stringLess "from".data "format".data = false := by decide
  have l4 : stringLess "from".data "target".data = true := by decide
  have l5 : stringLess "until".data "format".data = false := by decide
  have l6 : stringLess "until".data "target".data = false := by decide
  have l7 : stringLess "until".data "from".data = false := by decide
  have l8 : stringLess "from".data "until".data = true := by decide
  refine ⟨?_, by decide⟩
  obtain ⟨fr, un, targets⟩ := r
  cases fr <;> cases un <;>
    simp [RenderRequest.Values, url.Values.Set, url.Values.Encode, url.Values.sorted,
      url.insertByKey, List.filter, l1, l2, l3, l4, l5, l6, l7, l8, e1, e2, e3, e4,
      a2, a3, a4, List.flatMap, List.map]

end graphite
